import Mathlib

/-!
Shallow embedding of the categorization and aggregation core of the
kma-bank-analyzer repository, together with proofs settling the frozen
claims about it.

Embedding conventions:
* Python `Decimal` amounts are represented as `Int` (exact minor units:
  amounts in this system are fixed-point decimals, whose addition and
  ordering coincide with integer addition and ordering on the scaled
  values; no operation of the modelled code divides or rounds).
* Python `dict` objects are represented either as total functions with the
  default value of the originating `defaultdict` (for the nested
  aggregation accumulator), or as association lists in insertion order
  (for the rule-engine caches, statistics, and the top-expense totals),
  with `dictGet`/`dictSet` reproducing lookup and insert-or-update-in-place.
* Python `str.lower` is represented by character-wise lowering (`lowerStr`);
  substring / prefix / suffix tests are represented on the character lists.
* `re.compile` / `Pattern.search` are represented by an abstract oracle
  `RegexOracle`: `compileOk` says whether a pattern source compiles and
  `search` decides whether a compiled pattern (source, ignore-case flag)
  is found inside a string.  The development is parametric in the oracle.
* Python `sorted(..., reverse=True)` and `list.sort(key=..., reverse=True)`
  are stable descending sorts; they are represented by the structurally
  recursive stable insertion sort `sortD` (stable sorts are extensionally
  unique, and structural recursion keeps every definition kernel-evaluable).
  Plain ascending `sorted(...)` over duplicate-free keys is `sortA`.
* Transaction fields not consulted by the aggregator or the rule engine
  (`currency`, `source_bank`, `source_file`, `processed_at`, `id`,
  `manual_override`) are omitted from the record; no modelled operation
  reads them.
-/

/-- Money models `decimal.Decimal` amounts: exact fixed-point values,
represented in minor units as integers. -/
abbrev Money := Int

/-- The `transaction_type` field: the model declares it as the documented
two-value enumeration `expense` / `income` (`transaction.py` line 25:
`transaction_type: str  # means expense or income`). -/
inductive TxType where
  | expense : TxType
  | income : TxType
deriving DecidableEq

/-- The `(date.year, date.month)` projection of a Python `datetime`;
the aggregator reads nothing else from the date. -/
structure TxDate where
  year : Int
  month : Nat
deriving DecidableEq

/-- Normalized bank transaction (`bank_analyzer/models/transaction.py`),
restricted to the fields the categorizer and aggregator read. -/
structure Transaction where
  date : TxDate
  description : String
  amount : Money
  transaction_type : TxType
  counterparty : String
  category_main : Option String
  category_sub : Option String
deriving DecidableEq

/-- Association-list lookup, modelling Python `dict.get` /
`key in dict`. -/
def dictGet {κ ν : Type} [DecidableEq κ] : List (κ × ν) → κ → Option ν
  | [], _ => none
  | (k', v') :: rest, k => if k' = k then some v' else dictGet rest k

/-- Association-list write, modelling Python `dict[k] = v`: update in
place when the key is present (insertion order kept), append otherwise. -/
def dictSet {κ ν : Type} [DecidableEq κ] : List (κ × ν) → κ → ν → List (κ × ν)
  | [], k, v => [(k, v)]
  | (k', v') :: rest, k, v =>
      if k' = k then (k, v) :: rest else (k', v') :: dictSet rest k v

/-- Models `d[k] = d.get(k, 0) + 1`. -/
def dictIncr {κ : Type} [DecidableEq κ] (d : List (κ × Nat)) (k : κ) : List (κ × Nat) :=
  dictSet d k ((dictGet d k).getD 0 + 1)

/-- Character-wise lower-casing, modelling Python `str.lower()`. -/
def lowerStr (s : String) : String := String.mk (s.data.map Char.toLower)

/-- List prefix test (used for Python `str.startswith`). -/
def startsWithL {α : Type} [DecidableEq α] : List α → List α → Bool
  | _, [] => true
  | [], _ :: _ => false
  | a :: as, b :: bs => if a = b then startsWithL as bs else false

/-- Substring containment on character lists, modelling Python
`pattern in value`. -/
def hasSubL {α : Type} [DecidableEq α] : List α → List α → Bool
  | [], pat => pat.isEmpty
  | hay@(_ :: rest), pat => startsWithL hay pat || hasSubL rest pat

/-- Python `pattern in value` on strings. -/
def strIncl (pat value : String) : Bool := hasSubL value.data pat.data

/-- Python `value.startswith(pat)`. -/
def strStarts (value pat : String) : Bool := startsWithL value.data pat.data

/-- Python `value.endswith(pat)`. -/
def strEnds (value pat : String) : Bool := startsWithL value.data.reverse pat.data.reverse

/-- First-occurrence de-duplication with a seen-accumulator: the key list
of a Python dict is its insertion order, i.e. the order of first
occurrence of each key. -/
def fstDedupAux {α : Type} [DecidableEq α] (seen : List α) : List α → List α
  | [] => []
  | a :: l => if a ∈ seen then fstDedupAux seen l else a :: fstDedupAux (a :: seen) l

/-- Keys of a Python dict built by first-time insertion: the input list
with every later duplicate dropped. -/
def fstDedup {α : Type} [DecidableEq α] (l : List α) : List α := fstDedupAux [] l

/-- Stable descending insertion for `sortD`: the new element is placed
after every element with a strictly greater key and before the first
element whose key is not greater (so earlier input elements precede
later ones among equal keys). -/
def insertD {α β : Type} [LinearOrder β] (k : α → β) (a : α) : List α → List α
  | [] => [a]
  | b :: l => if k a < k b then b :: insertD k a l else a :: b :: l

/-- Stable descending sort by a key, modelling Python
`sorted(..., key=..., reverse=True)` / `list.sort(key=..., reverse=True)`
(which are stable: elements with equal keys keep their original relative
order). -/
def sortD {α β : Type} [LinearOrder β] (k : α → β) : List α → List α
  | [] => []
  | a :: l => insertD k a (sortD k l)

/-- Stable ascending insertion for `sortA`. -/
def insertA {β : Type} [LinearOrder β] (a : β) : List β → List β
  | [] => [a]
  | b :: l => if b < a then b :: insertA a l else a :: b :: l

/-- Ascending sort, modelling Python `sorted(...)` over plain keys. -/
def sortA {β : Type} [LinearOrder β] : List β → List β
  | [] => []
  | a :: l => insertA a (sortA l)

/-- Python `x or default` for an optional string: `None` and the empty
string (both falsy) are replaced by the default. -/
def orDefault (s : Option String) (d : String) : String :=
  match s with
  | none => d
  | some v => if v = "" then d else v

/-- `cat_main = trans.category_main or "Inne wydatki"`
(`aggregator.py` line 58). -/
def resolvedMain (t : Transaction) : String := orDefault t.category_main "Inne wydatki"

/-- `cat_sub = trans.category_sub or "Nieprzypisane"`
(`aggregator.py` line 59). -/
def resolvedSub (t : Transaction) : String := orDefault t.category_sub "Nieprzypisane"

/-- Does transaction `t` fall in year `y`, month `m`? -/
def isInYM (y : Int) (m : Nat) (t : Transaction) : Bool :=
  t.date.year = y ∧ t.date.month = m

/-- Does transaction `t` land in the category cell
`(y, m, main, sub)` after sentinel defaulting? -/
def isInCell (y : Int) (m : Nat) (main sub : String) (t : Transaction) : Bool :=
  isInYM y m t ∧ resolvedMain t = main ∧ resolvedSub t = sub

/-- Is `t` an expense-type transaction
(the expense comparison of the transaction type)? -/
def isExp (t : Transaction) : Bool := t.transaction_type = TxType.expense

/-- The `aggregate` test for the uncategorized list
(`aggregator.py` line 55): the raw `category_sub` field is compared
against the sentinel, before any defaulting. -/
def isUncat (t : Transaction) : Bool := t.category_sub = some "Nieprzypisane"

/-- One `categories[cat_main][cat_sub]` cell of a month:
`{'total': ..., 'count': ..., 'transactions': [...]}`. -/
structure CellData where
  total : Money
  count : Nat
  transactions : List Transaction
deriving DecidableEq

/-- Default cell of the innermost `defaultdict`
(`aggregator.py` lines 30-34). -/
def cell0 : CellData := { total := 0, count := 0, transactions := [] }

/-- One month entry of the aggregation structure: the category
`defaultdict` (as a total function with default `cell0`) and the three
running totals (`aggregator.py` lines 29-38). -/
structure MonthAcc where
  categories : String → String → CellData
  total : Money
  total_income : Money
  total_expense : Money

/-- Default month entry of the `defaultdict`. -/
def month0 : MonthAcc :=
  { categories := fun _ _ => cell0, total := 0, total_income := 0, total_expense := 0 }

/-- State of the first `aggregate` loop: the
`data` `defaultdict` (total function with default `month0`) plus the
`uncategorized` list. -/
structure AggAcc where
  data : Int → Nat → MonthAcc
  uncategorized : List Transaction

/-- Initial state of the `aggregate` loop. -/
def aggInit : AggAcc := { data := fun _ _ => month0, uncategorized := [] }

/-- Body of the per-transaction loop of `Aggregator.aggregate`
(`aggregator.py` lines 42-65): add the amount to the month totals
(expense or income by type, and the combined total), append to
`uncategorized` when the raw `category_sub` equals the sentinel, and add
the transaction to its `(cat_main, cat_sub)` cell after defaulting. -/
def aggStep (acc : AggAcc) (t : Transaction) : AggAcc :=
  { data := fun y m =>
      if t.date.year = y ∧ t.date.month = m then
        { categories := fun main sub =>
            if resolvedMain t = main ∧ resolvedSub t = sub then
              let c := (acc.data y m).categories main sub
              { total := c.total + t.amount
              , count := c.count + 1
              , transactions := c.transactions ++ [t] }
            else (acc.data y m).categories main sub
        , total := (acc.data y m).total + t.amount
        , total_income :=
            if t.transaction_type = TxType.expense then (acc.data y m).total_income
            else (acc.data y m).total_income + t.amount
        , total_expense :=
            if t.transaction_type = TxType.expense then (acc.data y m).total_expense + t.amount
            else (acc.data y m).total_expense }
      else acc.data y m
  , uncategorized := acc.uncategorized ++ (if isUncat t then [t] else []) }

/-- The whole first loop of `aggregate`. -/
def aggData (ts : List Transaction) : AggAcc := List.foldl aggStep aggInit ts

/-- One `categories_year[main][sub]` cell: total and count. -/
structure YearCell where
  total : Money
  count : Nat
deriving DecidableEq

/-- The report structure returned by `Aggregator.aggregate`
(`aggregator.py` lines 68-132).  Nested dicts are represented by their
key lists (in the iteration order the code produces) together with total
functions giving the stored values; `summary` is flattened into the three
count fields. -/
structure Report where
  yearKeys : List Int
  monthKeys : Int → List Nat
  months : Int → Nat → MonthAcc
  monthCatMains : Int → Nat → List String
  monthCatSubs : Int → Nat → String → List String
  total_year : Int → Money
  total_year_income : Int → Money
  total_year_expense : Int → Money
  categories_year : Int → String → String → YearCell
  yearCatMains : Int → List String
  yearCatSubs : Int → String → List String
  uncategorized : List Transaction
  all_transactions : List Transaction
  total_transactions : Nat
  total_categorized : Nat
  total_uncategorized : Nat

/-- `Aggregator.aggregate`.  The key lists reproduce Python dict key
order: keys of the `defaultdict`s are created in first-access order
(first occurrence over the transaction list), and years / months are
emitted through `sorted(...)`.  The yearly totals accumulate the monthly
fields over the sorted month keys exactly as the second loop does; for
`categories_year` the accumulation may also be taken over every month of
the year because a month in which a `(main, sub)` pair is absent
contributes the `defaultdict` default `cell0` (zero total, zero count). -/
def aggregate (ts : List Transaction) : Report :=
  let acc := aggData ts
  let mKeys : Int → List Nat := fun y =>
    sortA (fstDedup ((ts.filter (fun t => t.date.year = y)).map (fun t => t.date.month)))
  let mMains : Int → Nat → List String := fun y m =>
    fstDedup ((ts.filter (isInYM y m)).map resolvedMain)
  let mSubs : Int → Nat → String → List String := fun y m main =>
    fstDedup (((ts.filter (isInYM y m)).filter (fun t => resolvedMain t = main)).map resolvedSub)
  { yearKeys := sortA (fstDedup (ts.map (fun t => t.date.year)))
  , monthKeys := mKeys
  , months := acc.data
  , monthCatMains := mMains
  , monthCatSubs := mSubs
  , total_year := fun y => (mKeys y).foldl (fun a m => a + (acc.data y m).total) 0
  , total_year_income := fun y => (mKeys y).foldl (fun a m => a + (acc.data y m).total_income) 0
  , total_year_expense := fun y => (mKeys y).foldl (fun a m => a + (acc.data y m).total_expense) 0
  , categories_year := fun y main sub =>
      (mKeys y).foldl (fun (c : YearCell) m =>
        { total := c.total + ((acc.data y m).categories main sub).total
        , count := c.count + ((acc.data y m).categories main sub).count }) ⟨0, 0⟩
  , yearCatMains := fun y => fstDedup (((mKeys y).map (fun m => mMains y m)).flatten)
  , yearCatSubs := fun y main => fstDedup (((mKeys y).map (fun m => mSubs y m main)).flatten)
  , uncategorized := acc.uncategorized
  , all_transactions := ts
  , total_transactions := ts.length
  , total_categorized := ts.length - acc.uncategorized.length
  , total_uncategorized := acc.uncategorized.length }

/-- `Aggregator.get_monthly_summary` (`aggregator.py` lines 134-156):
`none` models the empty dict `{}` returned on a missing year or month. -/
def get_monthly_summary (r : Report) (year : Int) (month : Nat) : Option MonthAcc :=
  if year ∈ r.yearKeys then
    if month ∈ r.monthKeys year then some (r.months year month) else none
  else none

/-- Result shape of `get_category_summary`: the empty dict `{}`, the full
`main -> sub -> cell` tree, or a single main-category `sub -> cell`
subtree (rendered as association lists in key order). -/
inductive CatSummary where
  | empty : CatSummary
  | full (mains : List (String × List (String × YearCell))) : CatSummary
  | single (subs : List (String × YearCell)) : CatSummary
deriving DecidableEq

/-- The `categories_year` tree of one year as an association list. -/
def yearCatTree (r : Report) (y : Int) : List (String × List (String × YearCell)) :=
  (r.yearCatMains y).map (fun main =>
    (main, (r.yearCatSubs y main).map (fun sub => (sub, r.categories_year y main sub))))

/-- `Aggregator.get_category_summary` (`aggregator.py` lines 158-184).
The argument is optional; the code guards with `if category_main:`, which
is false both for `None` and for the empty string, so both return the
full tree.  A non-empty requested main category is looked up with
`.get(category_main, {})`. -/
def get_category_summary (r : Report) (year : Int) (category_main : Option String) : CatSummary :=
  if year ∈ r.yearKeys then
    match category_main with
    | none => CatSummary.full (yearCatTree r year)
    | some c =>
        if c = "" then CatSummary.full (yearCatTree r year)
        else if c ∈ r.yearCatMains year then
          CatSummary.single ((r.yearCatSubs year c).map (fun sub => (sub, r.categories_year year c sub)))
        else CatSummary.empty
  else CatSummary.empty

/-- Value of one `category_totals[key]` entry in `get_top_expenses`:
running total and count plus the (last-written) category pair. -/
structure CatTot where
  total : Money
  count : Nat
  category_main : String
  category_sub : String
deriving DecidableEq

/-- One step of the `category_totals` accumulation
(`aggregator.py` lines 213-219): key `"main > sub"`, add the yearly cell
into the entry (creating it from the `defaultdict` zero default when
absent), and overwrite the stored category pair. -/
def topStep (r : Report) (y : Int) (d : List (String × CatTot)) (p : String × String) : List (String × CatTot) :=
  let key := p.1 ++ " > " ++ p.2
  let v := r.categories_year y p.1 p.2
  match dictGet d key with
  | some c => dictSet d key
      { total := c.total + v.total, count := c.count + v.count
      , category_main := p.1, category_sub := p.2 }
  | none => dictSet d key
      { total := v.total, count := v.count
      , category_main := p.1, category_sub := p.2 }

/-- The `(main, sub)` pairs of the `categories_year` tree of one year in
iteration order. -/
def yearPairs (r : Report) (y : Int) : List (String × String) :=
  ((r.yearCatMains y).map (fun main => (r.yearCatSubs y main).map (fun sub => (main, sub)))).flatten

/-- The `category_totals` dict of `get_top_expenses`
(`aggregator.py` lines 203-219), as an association list in insertion
order: iterate the target years (the single requested year, or every
year of the report), skip absent years, and fold the per-year category
pairs into the dict. -/
def category_totals (r : Report) (year : Option Int) : List (String × CatTot) :=
  let target := match year with | some y => [y] | none => r.yearKeys
  (target.filter (fun y => y ∈ r.yearKeys)).foldl
    (fun d y => (yearPairs r y).foldl (topStep r y) d) []

/-- `sorted_categories` (`aggregator.py` lines 222-226): stable sort of
the dict items by total, descending. -/
def sorted_categories (r : Report) (year : Option Int) : List (String × CatTot) :=
  sortD (fun p => p.2.total) (category_totals r year)

/-- One flattened record returned by `get_top_expenses`.  The `total`
field keeps the exact amount (the final `float(...)` conversion of the code
is a lossy rendering of the same value and is outside the model). -/
structure TopEntry where
  category : String
  category_main : String
  category_sub : String
  total : Money
  count : Nat
deriving DecidableEq

/-- `Aggregator.get_top_expenses` (`aggregator.py` lines 186-237).
`year = none` models the Python `year=None` default (`[year] if year
else ...` makes the falsy values take the all-years branch); `limit` is
the slice bound `[:limit]` of the non-negative usage the signature
documents. -/
def get_top_expenses (r : Report) (year : Option Int) (limit : Nat) : List TopEntry :=
  ((sorted_categories r year).take limit).map (fun p =>
    { category := p.1
    , category_main := p.2.category_main
    , category_sub := p.2.category_sub
    , total := p.2.total
    , count := p.2.count })

/-- Abstract semantics of the `re` module as used by the rule engine:
`compileOk p` tells whether `re.compile(p, flags)` succeeds (validity of a
pattern source does not depend on the flags), and `search p ic v` tells
whether the compiled form of pattern source `p` (with `re.IGNORECASE` iff
`ic`) is found by `.search` inside `v`. -/
structure RegexOracle where
  compileOk : String → Bool
  search : String → Bool → String → Bool

/-- One rule definition, i.e. one loosely-typed rule dict from the YAML
file or from `add_rule`: optional keys are `Option`-valued, matching the
`rule.get(key, default)` accesses; `category_main` / `category_sub` are
accessed with mandatory dict indexing by `categorize`, and
`reason` only exists on exclusion rules. -/
structure Rule where
  name : Option String
  pattern : String
  field : Option String
  match_type : Option String
  case_sensitive : Option Bool
  priority : Option Int
  category_main : String
  category_sub : String
  reason : Option String
deriving DecidableEq

/-- State of a `RuleEngine` instance: the two rule lists, the two
compiled-pattern dicts (index of the rule in its list, mapped to the
pattern source and its ignore-case flag), the two statistics dicts and
the result cache (`rule_engine.py` lines 24-31). -/
structure EngineState where
  rules : List Rule
  exclude_rules : List Rule
  compiled_patterns : List (Nat × (String × Bool))
  compiled_exclude_patterns : List (Nat × (String × Bool))
  stats : List (String × Nat)
  exclude_stats : List (String × Nat)
  cache : List (String × (String × String))
deriving DecidableEq

/-- Pattern pre-compilation loop (`rule_engine.py` lines 55-66 and
68-78): for each rule index, if the match type is exactly `regex`
(a `rule.get` on the match-type key with NO default, compared to `regex`) compile the
pattern with `re.IGNORECASE` unless `case_sensitive`; a pattern that
fails to compile is skipped (logged). -/
def compileAll (O : RegexOracle) (rs : List Rule) : List (Nat × (String × Bool)) :=
  rs.enum.foldl
    (fun d q =>
      if q.2.match_type = some "regex" ∧ O.compileOk q.2.pattern then
        dictSet d q.1 (q.2.pattern, !(q.2.case_sensitive.getD false))
      else d) []

/-- `RuleEngine._load_rules` after a successful YAML read
(`rule_engine.py` lines 48-78): the categorization rules are sorted by
`priority` (default 0) descending with a stable sort; the exclusion
rules are NOT sorted; then both lists get their regex patterns
compiled.  File reading itself is out of scope: the two lists stand for
the parsed `rules` and `exclude` collections of the YAML data. -/
def initEngine (O : RegexOracle) (rs ex : List Rule) : EngineState :=
  let sorted := sortD (fun r => r.priority.getD 0) rs
  { rules := sorted
  , exclude_rules := ex
  , compiled_patterns := compileAll O sorted
  , compiled_exclude_patterns := compileAll O ex
  , stats := []
  , exclude_stats := []
  , cache := [] }

/-- Field extraction shared by `_match_rule` and `_match_exclude_rule`
(`rule_engine.py` lines 197-203 and 121-127): read the configured field
(with the given default name), `counterparty` or `description`; any
other configured name yields the empty string. -/
def fieldValueOf (rule : Rule) (dflt : String) (t : Transaction) : String :=
  let fn := rule.field.getD dflt
  if fn = "counterparty" then t.counterparty
  else if fn = "description" then t.description
  else ""

/-- Common matching body of `_match_rule` and `_match_exclude_rule`
(`rule_engine.py` lines 192-229 / 116-149), applied to an already
extracted field value: default match type is `contains`, default
`case_sensitive` is false; unless case-sensitive, the field value is
lowered and the pattern is lowered too except for regex rules; then the
five match types are tested, an uncompiled regex index and an unknown
match type both yield no match. -/
def matchValue (O : RegexOracle) (compiled : List (Nat × (String × Bool)))
    (rule : Rule) (idx : Nat) (fval : String) : Bool :=
  let mt := rule.match_type.getD "contains"
  let cs := rule.case_sensitive.getD false
  let fv := if cs then fval else lowerStr fval
  let pat := if cs then rule.pattern
    else if mt = "regex" then rule.pattern else lowerStr rule.pattern
  if mt = "contains" then strIncl pat fv
  else if mt = "exact" then pat = fv
  else if mt = "startswith" then strStarts fv pat
  else if mt = "endswith" then strEnds fv pat
  else if mt = "regex" then
    match dictGet compiled idx with
    | some pc => O.search pc.1 pc.2 fv
    | none => false
  else false

/-- `RuleEngine._match_rule`: categorization matching defaults the field
to `counterparty`. -/
def matchRule (O : RegexOracle) (s : EngineState) (rule : Rule) (t : Transaction) (idx : Nat) : Bool :=
  matchValue O s.compiled_patterns rule idx (fieldValueOf rule "counterparty" t)

/-- `RuleEngine._match_exclude_rule`: exclusion matching defaults the
field to `description`. -/
def matchExcludeRule (O : RegexOracle) (s : EngineState) (rule : Rule) (t : Transaction) (idx : Nat) : Bool :=
  matchValue O s.compiled_exclude_patterns rule idx (fieldValueOf rule "description" t)

/-- First-match scan over an (indexed) rule list: the `for idx, rule in
enumerate(...)` loops of `categorize` and `should_exclude`, returning
the first index/rule whose match test succeeds. -/
def findRuleFrom (O : RegexOracle) (compiled : List (Nat × (String × Bool)))
    (dflt : String) (t : Transaction) : List Rule → Nat → Option (Nat × Rule)
  | [], _ => none
  | r :: rest, i =>
      if matchValue O compiled r i (fieldValueOf r dflt t) then some (i, r)
      else findRuleFrom O compiled dflt t rest (i + 1)

/-- The cache key of `categorize` (`rule_engine.py` line 166):
the lower-cased counterparty and description joined with a bar. -/
def cacheKey (t : Transaction) : String :=
  lowerStr t.counterparty ++ "|" ++ lowerStr t.description

/-- Default result of `categorize` when no rule matches
(`rule_engine.py` line 186). -/
def defaultPair : String × String := ("Inne wydatki", "Nieprzypisane")

/-- `RuleEngine.categorize` (`rule_engine.py` lines 155-186): on a cache
hit return the cached pair unchanged (no statistics update); otherwise
scan the rules in order; the first match returns its category pair,
increments the per-rule-name usage counter (name defaulting to
`rule_{idx}`) and stores the pair in the cache; no match returns the
default pair and stores nothing. -/
def categorize (O : RegexOracle) (s : EngineState) (t : Transaction) :
    (String × String) × EngineState :=
  match dictGet s.cache (cacheKey t) with
  | some v => (v, s)
  | none =>
      match findRuleFrom O s.compiled_patterns "counterparty" t s.rules 0 with
      | some ir =>
          let pair := (ir.2.category_main, ir.2.category_sub)
          let rule_name := ir.2.name.getD ("rule_" ++ toString ir.1)
          (pair,
            { s with stats := dictIncr s.stats rule_name
                   , cache := dictSet s.cache (cacheKey t) pair })
      | none => (defaultPair, s)

/-- `RuleEngine.should_exclude` (`rule_engine.py` lines 90-110): scan the
exclusion rules in list order; the first match returns true with the
reason of the rule (or its name, defaulting to `exclude_` plus the index) and
increments the per-rule-name exclusion counter; no match returns
`(false, none)` and changes nothing. -/
def should_exclude (O : RegexOracle) (s : EngineState) (t : Transaction) :
    (Bool × Option String) × EngineState :=
  match findRuleFrom O s.compiled_exclude_patterns "description" t s.exclude_rules 0 with
  | some ir =>
      let rule_name := ir.2.name.getD ("exclude_" ++ toString ir.1)
      let reason := ir.2.reason.getD rule_name
      ((true, some reason), { s with exclude_stats := dictIncr s.exclude_stats rule_name })
  | none => ((false, none), s)

/-- `RuleEngine.add_rule` (`rule_engine.py` lines 239-288): build a rule
dict with every field present, append it, re-sort the rule list by
priority descending (stable), and if the match type is `regex`, compile
the pattern and store it at index `len(self.rules) - 1` — the index
taken AFTER the re-sort, which is the last position of the sorted list,
not necessarily the position of the new rule.  Finally clear the result
cache. -/
def add_rule (O : RegexOracle) (s : EngineState) (name pattern category_main category_sub : String)
    (field : String := "counterparty") (match_type : String := "contains")
    (priority : Int := 10) (case_sensitive : Bool := false) : EngineState :=
  let rule : Rule :=
    { name := some name, pattern := pattern, field := some field
    , match_type := some match_type, case_sensitive := some case_sensitive
    , priority := some priority, category_main := category_main
    , category_sub := category_sub, reason := none }
  let rules := sortD (fun r => r.priority.getD 0) (s.rules ++ [rule])
  let compiled :=
    if match_type = "regex" ∧ O.compileOk pattern then
      dictSet s.compiled_patterns (rules.length - 1) (pattern, !case_sensitive)
    else s.compiled_patterns
  { s with rules := rules, compiled_patterns := compiled, cache := [] }

/-- Semantic statement of the phrase: the pattern of the rule matches the empty string,
by match type: for the four plain string match types the (case-folded)
pattern must be empty; for a regex rule the compiled pattern at the
index of the rule must be found in the empty string; an unknown match type
matches nothing. -/
def patternMatchesEmpty (O : RegexOracle) (compiled : List (Nat × (String × Bool)))
    (rule : Rule) (idx : Nat) : Bool :=
  let mt := rule.match_type.getD "contains"
  if mt = "regex" then
    match dictGet compiled idx with
    | some pc => O.search pc.1 pc.2 ""
    | none => false
  else if mt = "contains" ∨ mt = "exact" ∨ mt = "startswith" ∨ mt = "endswith" then
    rule.pattern = ""
  else false


/-! ## Concrete instances used by counterexamples and witnesses -/

/-- A concrete regex oracle for closed evaluations: every pattern
compiles, and `search` is substring containment (ignoring the flag). -/
def inclOracle : RegexOracle := ⟨fun _ => true, fun p _ v => strIncl p v⟩

/-- A categorized January expense. -/
def txGroceries : Transaction :=
  ⟨⟨2024, 1⟩, "Zakupy", 100, TxType.expense, "Biedronka", some "Jedzenie", some "Spozywcze"⟩

/-- A categorized February expense in another category. -/
def txFuel : Transaction :=
  ⟨⟨2024, 2⟩, "Paliwo", 250, TxType.expense, "Orlen", some "Transport", some "Paliwo"⟩

/-- A transaction with a null `category_sub` (and null `category_main`). -/
def txNullSub : Transaction :=
  ⟨⟨2024, 1⟩, "Nieznany", 75, TxType.expense, "Unknown", none, none⟩

/-- A case-sensitive contains-rule on the counterparty field. -/
def ruleShopCS : Rule :=
  ⟨some "shop_cs", "Shop", some "counterparty", some "contains", some true, some 5,
    "Zakupy", "Sklep", none⟩

/-- Engine loaded with the single case-sensitive rule. -/
def engineCS : EngineState := initEngine inclOracle [ruleShopCS] []

/-- Counterparty `Shop` (matches `ruleShopCS`). -/
def tShopUpper : Transaction := ⟨⟨2024, 1⟩, "d", 10, TxType.expense, "Shop", none, none⟩

/-- Counterparty `shop`: same cache key as `tShopUpper` after
lower-casing, but not matched by the case-sensitive rule. -/
def tShopLower : Transaction := ⟨⟨2024, 1⟩, "d", 10, TxType.expense, "shop", none, none⟩

/-- Engine state after categorizing `tShopUpper` (cache populated). -/
def engineCS2 : EngineState := (categorize inclOracle engineCS tShopUpper).2

/-- A transaction matching no rule of `engineCS`, with a fresh cache key. -/
def txNoMatch : Transaction := ⟨⟨2024, 1⟩, "x", 1, TxType.expense, "nobody", none, none⟩

/-- A low-priority rule that matches nothing of interest. -/
def ruleLowPrio : Rule :=
  ⟨some "low", "zzz", some "counterparty", some "contains", some false, some 0, "L", "LS", none⟩

/-- Engine obtained by loading `ruleLowPrio` and then adding a
high-priority regex rule through `add_rule`. -/
def engineC4 : EngineState :=
  add_rule inclOracle (initEngine inclOracle [ruleLowPrio] [])
    "rx" "needle" "Cat" "Sub" "counterparty" "regex" 10 false

/-- The rule record `add_rule` builds in `engineC4`. -/
def ruleRegexNew : Rule :=
  ⟨some "rx", "needle", some "counterparty", some "regex", some false, some 10,
    "Cat", "Sub", none⟩

/-- A transaction whose counterparty the added regex pattern matches
(under `inclOracle`). -/
def txNeedle : Transaction :=
  ⟨⟨2024, 1⟩, "", 1, TxType.expense, "has needle inside", none, none⟩

/-- An exclusion rule that does not match `txTransfer`. -/
def ruleExclA : Rule :=
  ⟨some "exclA", "qqq", some "description", some "contains", some false, some 0,
    "", "", some "reasonA"⟩

/-- An exclusion rule with a reason, matching `txTransfer`. -/
def ruleExclB : Rule :=
  ⟨some "exclB", "transfer", some "description", some "contains", some false, some 0,
    "", "", some "internal transfer"⟩

/-- Engine with two exclusion rules and no categorization rules. -/
def engineExcl : EngineState := initEngine inclOracle [] [ruleExclA, ruleExclB]

/-- Its description contains `transfer`. -/
def txTransfer : Transaction :=
  ⟨⟨2024, 1⟩, "my transfer out", 1, TxType.expense, "me", none, none⟩

/-- A rule whose `field` is neither `counterparty` nor `description`. -/
def ruleOddField : Rule :=
  ⟨some "odd", "", some "note", some "contains", some false, some 1, "A", "B", none⟩

/-- A rule definition that omits the `field` key entirely. -/
def ruleNoField : Rule :=
  ⟨some "nf", "abc", none, none, none, none, "A", "B", none⟩

/-! ## Library lemmas about the utility definitions -/

theorem dictGet_dictSet_self {κ ν : Type} [DecidableEq κ] (d : List (κ × ν)) (k : κ) (v : ν) :
    dictGet (dictSet d k v) k = some v := by
  induction d with
  | nil => simp [dictSet, dictGet]
  | cons p rest ih =>
      rcases p with ⟨k', v'⟩
      by_cases h : k' = k
      · simp [dictSet, h, dictGet]
      · simp [dictSet, h, dictGet, ih]

theorem dictGet_dictSet_ne {κ ν : Type} [DecidableEq κ] (d : List (κ × ν)) (k k' : κ) (v : ν)
    (h : k' ≠ k) : dictGet (dictSet d k v) k' = dictGet d k' := by
  have hk : ¬ k = k' := fun h' => h h'.symm
  induction d with
  | nil => simp [dictSet, dictGet, hk]
  | cons p rest ih =>
      rcases p with ⟨k₀, v₀⟩
      by_cases h0 : k₀ = k
      · subst h0
        simp [dictSet, dictGet, hk]
      · by_cases h1 : k₀ = k'
        · simp [dictSet, h0, dictGet, h1, h]
        · simp [dictSet, h0, dictGet, h1, ih]

theorem mem_dictSet {κ ν : Type} [DecidableEq κ] (d : List (κ × ν)) (k : κ) (v : ν)
    (p : κ × ν) (hp : p ∈ dictSet d k v) : p = (k, v) ∨ p ∈ d := by
  induction d with
  | nil => simpa [dictSet] using hp
  | cons q rest ih =>
      rcases q with ⟨k₀, v₀⟩
      by_cases h0 : k₀ = k
      · simp only [dictSet, if_pos h0, List.mem_cons] at hp
        rcases hp with h | h
        · exact Or.inl h
        · exact Or.inr (List.mem_cons_of_mem _ h)
      · simp only [dictSet, if_neg h0, List.mem_cons] at hp
        rcases hp with h | h
        · exact Or.inr (by simp [h])
        · rcases ih h with h' | h'
          · exact Or.inl h'
          · exact Or.inr (List.mem_cons_of_mem _ h')

theorem mem_fstDedupAux {α : Type} [DecidableEq α] (x : α) :
    ∀ (l seen : List α), x ∈ fstDedupAux seen l ↔ x ∈ l ∧ x ∉ seen := by
  intro l
  induction l with
  | nil => intro seen; simp [fstDedupAux]
  | cons a rest ih =>
      intro seen
      by_cases h : a ∈ seen
      · rw [fstDedupAux, if_pos h, ih]
        constructor
        · rintro ⟨hx, hs⟩; exact ⟨List.mem_cons_of_mem _ hx, hs⟩
        · rintro ⟨hx, hs⟩
          rcases List.mem_cons.mp hx with rfl | hx
          · exact absurd h hs
          · exact ⟨hx, hs⟩
      · rw [fstDedupAux, if_neg h]
        constructor
        · intro hx
          rcases List.mem_cons.mp hx with rfl | hx
          · exact ⟨List.mem_cons_self _ _, h⟩
          · rcases (ih (a :: seen)).mp hx with ⟨h1, h2⟩
            refine ⟨List.mem_cons_of_mem _ h1, fun hc => h2 (List.mem_cons_of_mem _ hc)⟩
        · rintro ⟨hx, hs⟩
          rcases List.mem_cons.mp hx with rfl | hx
          · exact List.mem_cons_self _ _
          · by_cases hxa : x = a
            · subst hxa; exact List.mem_cons_self _ _
            · exact List.mem_cons_of_mem _ ((ih (a :: seen)).mpr
                ⟨hx, fun hc => (List.mem_cons.mp hc).elim hxa hs⟩)

theorem mem_fstDedup {α : Type} [DecidableEq α] (x : α) (l : List α) :
    x ∈ fstDedup l ↔ x ∈ l := by
  rw [fstDedup, mem_fstDedupAux]; simp

theorem nodup_fstDedupAux {α : Type} [DecidableEq α] :
    ∀ (l seen : List α), (fstDedupAux seen l).Nodup := by
  intro l
  induction l with
  | nil => intro seen; simp [fstDedupAux]
  | cons a rest ih =>
      intro seen
      by_cases h : a ∈ seen
      · rw [fstDedupAux, if_pos h]; exact ih seen
      · rw [fstDedupAux, if_neg h]
        refine List.Nodup.cons ?_ (ih (a :: seen))
        intro hc
        exact ((mem_fstDedupAux a rest (a :: seen)).mp hc).2 (List.mem_cons_self _ _)

theorem nodup_fstDedup {α : Type} [DecidableEq α] (l : List α) : (fstDedup l).Nodup :=
  nodup_fstDedupAux l []

theorem insertA_perm {β : Type} [LinearOrder β] (a : β) :
    ∀ (l : List β), (insertA a l).Perm (a :: l) := by
  intro l
  induction l with
  | nil => simp [insertA]
  | cons b rest ih =>
      rw [insertA]
      by_cases h : b < a
      · rw [if_pos h]
        exact (ih.cons b).trans (List.Perm.swap a b rest)
      · rw [if_neg h]

theorem sortA_perm {β : Type} [LinearOrder β] :
    ∀ (l : List β), (sortA l).Perm l := by
  intro l
  induction l with
  | nil => simp [sortA]
  | cons a rest ih =>
      rw [sortA]
      exact (insertA_perm a (sortA rest)).trans (ih.cons a)

theorem mem_sortA {β : Type} [LinearOrder β] (x : β) (l : List β) :
    x ∈ sortA l ↔ x ∈ l := (sortA_perm l).mem_iff

theorem insertD_perm {α β : Type} [LinearOrder β] (k : α → β) (a : α) :
    ∀ (l : List α), (insertD k a l).Perm (a :: l) := by
  intro l
  induction l with
  | nil => simp [insertD]
  | cons b rest ih =>
      rw [insertD]
      by_cases h : k a < k b
      · rw [if_pos h]
        exact (ih.cons b).trans (List.Perm.swap a b rest)
      · rw [if_neg h]

theorem sortD_perm {α β : Type} [LinearOrder β] (k : α → β) :
    ∀ (l : List α), (sortD k l).Perm l := by
  intro l
  induction l with
  | nil => simp [sortD]
  | cons a rest ih =>
      rw [sortD]
      exact (insertD_perm k a (sortD k rest)).trans (ih.cons a)

theorem mem_sortD {α β : Type} [LinearOrder β] (k : α → β) (x : α) (l : List α) :
    x ∈ sortD k l ↔ x ∈ l := (sortD_perm k l).mem_iff

theorem insertD_pairwise {α β : Type} [LinearOrder β] (k : α → β) (a : α) (l : List α)
    (h : l.Pairwise (fun x y => k y ≤ k x)) :
    (insertD k a l).Pairwise (fun x y => k y ≤ k x) := by
  induction l with
  | nil => simp [insertD]
  | cons b rest ih =>
      rw [insertD]
      rcases List.pairwise_cons.mp h with ⟨hb, hrest⟩
      by_cases hc : k a < k b
      · rw [if_pos hc]
        refine List.pairwise_cons.mpr ⟨?_, ih hrest⟩
        intro x hx
        rcases (insertD_perm k a rest).mem_iff.mp hx with hx'
        rcases List.mem_cons.mp hx' with rfl | hx''
        · exact le_of_lt hc
        · exact hb x hx''
      · rw [if_neg hc]
        refine List.pairwise_cons.mpr ⟨?_, h⟩
        intro x hx
        rcases List.mem_cons.mp hx with rfl | hx'
        · exact le_of_not_lt hc
        · exact le_trans (hb x hx') (le_of_not_lt hc)

theorem sortD_sorted {α β : Type} [LinearOrder β] (k : α → β) :
    ∀ (l : List α), (sortD k l).Pairwise (fun x y => k y ≤ k x) := by
  intro l
  induction l with
  | nil => simp [sortD]
  | cons a rest ih =>
      rw [sortD]
      exact insertD_pairwise k a (sortD k rest) ih

theorem insertD_filter_key {α β : Type} [LinearOrder β] (k : α → β) (q : β) (a : α) :
    ∀ (l : List α),
      (insertD k a l).filter (fun x => k x = q)
        = if k a = q then a :: l.filter (fun x => k x = q) else l.filter (fun x => k x = q) := by
  intro l
  induction l with
  | nil =>
      by_cases h : k a = q <;> simp [insertD, List.filter_cons, h]
  | cons b rest ih =>
      rw [insertD]
      by_cases hc : k a < k b
      · rw [if_pos hc]
        by_cases hb : k b = q
        · by_cases ha : k a = q
          · rw [ha, hb] at hc
            exact absurd hc (lt_irrefl q)
          · simp [List.filter_cons, hb, ha, ih]
        · by_cases ha : k a = q <;> simp [List.filter_cons, hb, ha, ih]
      · rw [if_neg hc]
        by_cases ha : k a = q <;> simp [List.filter_cons, ha]

theorem sortD_filter_key {α β : Type} [LinearOrder β] (k : α → β) (q : β) :
    ∀ (l : List α),
      (sortD k l).filter (fun x => k x = q) = l.filter (fun x => k x = q) := by
  intro l
  induction l with
  | nil => simp [sortD]
  | cons a rest ih =>
      rw [sortD, insertD_filter_key]
      by_cases ha : k a = q <;> simp [List.filter_cons, ha, ih]

theorem foldl_add_sum {γ : Type} (f : γ → Money) :
    ∀ (l : List γ) (init : Money),
      l.foldl (fun a x => a + f x) init = init + (l.map f).sum := by
  intro l
  induction l with
  | nil => intro init; simp
  | cons a rest ih =>
      intro init
      rw [List.foldl_cons, ih, List.map_cons, List.sum_cons, add_assoc]

theorem foldl_yearCell {γ : Type} (f : γ → Money) (g : γ → Nat) :
    ∀ (l : List γ) (init : YearCell),
      l.foldl (fun (c : YearCell) m => { total := c.total + f m, count := c.count + g m }) init
        = { total := init.total + (l.map f).sum, count := init.count + (l.map g).sum } := by
  intro l
  induction l with
  | nil => intro init; simp
  | cons a rest ih =>
      intro init
      rw [List.foldl_cons, ih]
      simp [add_assoc]

theorem sum_map_filter_split {α : Type} (p : α → Bool) (g : α → Money) :
    ∀ (l : List α),
      ((l.filter p).map g).sum + ((l.filter (fun x => !p x)).map g).sum = (l.map g).sum := by
  intro l
  induction l with
  | nil => simp
  | cons a rest ih =>
      by_cases h : p a
      · simp only [List.filter_cons, h, if_pos, Bool.not_true, Bool.false_eq_true, if_neg,
          List.map_cons, List.sum_cons, ite_true, ite_false]
        rw [add_assoc, ih]
      · simp only [List.filter_cons, h, Bool.not_false, Bool.false_eq_true, List.map_cons,
          List.sum_cons, ite_false, ite_true, if_neg, if_pos]
        rw [← ih]
        ring

theorem sum_partition {κ α : Type} [DecidableEq κ] (k : α → κ) (g : α → Money) :
    ∀ (keys : List κ), keys.Nodup → ∀ (l : List α), (∀ x ∈ l, k x ∈ keys) →
      (keys.map (fun key => ((l.filter (fun x => k x = key)).map g).sum)).sum = (l.map g).sum := by
  intro keys
  induction keys with
  | nil =>
      intro _ l hcov
      have : l = [] := by
        cases l with
        | nil => rfl
        | cons a rest => exact absurd (hcov a (List.mem_cons_self _ _)) (List.not_mem_nil _)
      subst this; simp
  | cons key keys ih =>
      intro hnd l hcov
      rcases List.nodup_cons.mp hnd with ⟨hkmem, hnd'⟩
      rw [List.map_cons, List.sum_cons]
      have hrest : ∀ key' ∈ keys,
          l.filter (fun x => k x = key')
            = (l.filter (fun x => !(decide (k x = key)))).filter (fun x => k x = key') := by
        intro key' hk'
        rw [List.filter_filter]
        refine (List.filter_congr ?_).symm
        intro x _
        by_cases hx : k x = key'
        · have hkk : ¬ key' = key := fun hcontra => hkmem (hcontra ▸ hk')
          have hne : ¬ k x = key := fun hcontra => hkk (hx.symm.trans hcontra)
          simp [hx, hne, hkk]
        · simp [hx]
      have hmap : (keys.map (fun key' => ((l.filter (fun x => k x = key')).map g).sum))
          = (keys.map (fun key' =>
              (((l.filter (fun x => !(decide (k x = key)))).filter (fun x => k x = key')).map g).sum)) := by
        refine List.map_congr_left ?_
        intro key' hk'
        rw [hrest key' hk']
      rw [hmap, ih hnd' (l.filter (fun x => !(decide (k x = key))))
        (by
          intro x hx
          rcases List.mem_filter.mp hx with ⟨hxl, hxne⟩
          rcases List.mem_cons.mp (hcov x hxl) with hcontra | h
          · exfalso
            simp [hcontra] at hxne
          · exact h)]
      exact sum_map_filter_split (fun x => decide (k x = key)) g l

theorem count_filter_eq {α : Type} [DecidableEq α] (p : α → Bool) (t : α) (l : List α) :
    (l.filter p).count t = if p t then l.count t else 0 := by
  by_cases h : p t
  · rw [if_pos h]
    exact List.count_filter h
  · rw [if_neg h]
    rw [List.count_eq_zero]
    intro hc
    exact h (List.mem_filter.mp hc).2

theorem filter_split2 {α : Type} (p q : α → Bool) :
    ∀ (l : List α), (l.filter p).filter q = l.filter (fun x => p x && q x) := by
  intro l
  induction l with
  | nil => simp
  | cons a rest ih =>
      by_cases hp : p a
      · by_cases hq : q a <;> simp [List.filter_cons, hp, hq, ih]
      · simp [List.filter_cons, hp, ih]

/-! ## Unfolding lemmas for the aggregation loop -/

theorem aggStep_total (acc : AggAcc) (t : Transaction) (y : Int) (m : Nat) :
    ((aggStep acc t).data y m).total
      = (acc.data y m).total + (if isInYM y m t then t.amount else 0) := by
  by_cases h1 : t.date.year = y ∧ t.date.month = m
  · simp [aggStep, h1, isInYM]
  · simp [aggStep, h1, isInYM]

theorem aggStep_total_expense (acc : AggAcc) (t : Transaction) (y : Int) (m : Nat) :
    ((aggStep acc t).data y m).total_expense
      = (acc.data y m).total_expense + (if isInYM y m t && isExp t then t.amount else 0) := by
  by_cases h1 : t.date.year = y ∧ t.date.month = m
  · by_cases h2 : t.transaction_type = TxType.expense
    · simp [aggStep, h1, h2, isInYM, isExp]
    · simp [aggStep, h1, h2, isInYM, isExp]
  · simp [aggStep, h1, isInYM]

theorem aggStep_total_income (acc : AggAcc) (t : Transaction) (y : Int) (m : Nat) :
    ((aggStep acc t).data y m).total_income
      = (acc.data y m).total_income + (if isInYM y m t && !isExp t then t.amount else 0) := by
  by_cases h1 : t.date.year = y ∧ t.date.month = m
  · by_cases h2 : t.transaction_type = TxType.expense
    · simp [aggStep, h1, h2, isInYM, isExp]
    · simp [aggStep, h1, h2, isInYM, isExp]
  · simp [aggStep, h1, isInYM]

theorem aggStep_cell_total (acc : AggAcc) (t : Transaction) (y : Int) (m : Nat) (main sub : String) :
    (((aggStep acc t).data y m).categories main sub).total
      = ((acc.data y m).categories main sub).total
        + (if isInCell y m main sub t then t.amount else 0) := by
  by_cases h1 : t.date.year = y ∧ t.date.month = m
  · by_cases h2 : resolvedMain t = main ∧ resolvedSub t = sub
    · simp [aggStep, h1, h2, isInCell, isInYM]
    · simp [aggStep, h1, h2, isInCell, isInYM]
  · simp [aggStep, h1, isInCell, isInYM]

theorem aggStep_cell_count (acc : AggAcc) (t : Transaction) (y : Int) (m : Nat) (main sub : String) :
    (((aggStep acc t).data y m).categories main sub).count
      = ((acc.data y m).categories main sub).count
        + (if isInCell y m main sub t then 1 else 0) := by
  by_cases h1 : t.date.year = y ∧ t.date.month = m
  · by_cases h2 : resolvedMain t = main ∧ resolvedSub t = sub
    · simp [aggStep, h1, h2, isInCell, isInYM]
    · simp [aggStep, h1, h2, isInCell, isInYM]
  · simp [aggStep, h1, isInCell, isInYM]

theorem aggStep_cell_transactions (acc : AggAcc) (t : Transaction) (y : Int) (m : Nat) (main sub : String) :
    (((aggStep acc t).data y m).categories main sub).transactions
      = ((acc.data y m).categories main sub).transactions
        ++ (if isInCell y m main sub t then [t] else []) := by
  by_cases h1 : t.date.year = y ∧ t.date.month = m
  · by_cases h2 : resolvedMain t = main ∧ resolvedSub t = sub
    · simp [aggStep, h1, h2, isInCell, isInYM]
    · simp [aggStep, h1, h2, isInCell, isInYM]
  · simp [aggStep, h1, isInCell, isInYM]

theorem aggLoop_total (y : Int) (m : Nat) :
    ∀ (ts : List Transaction) (acc : AggAcc),
      ((List.foldl aggStep acc ts).data y m).total
        = (acc.data y m).total + ((ts.filter (isInYM y m)).map (fun t => t.amount)).sum := by
  intro ts
  induction ts with
  | nil => intro acc; simp
  | cons t rest ih =>
      intro acc
      rw [List.foldl_cons, ih, aggStep_total]
      by_cases h : isInYM y m t
      · simp [List.filter_cons, h, add_assoc]
      · simp [List.filter_cons, h]

theorem aggLoop_total_expense (y : Int) (m : Nat) :
    ∀ (ts : List Transaction) (acc : AggAcc),
      ((List.foldl aggStep acc ts).data y m).total_expense
        = (acc.data y m).total_expense
          + ((ts.filter (fun t => isInYM y m t && isExp t)).map (fun t => t.amount)).sum := by
  intro ts
  induction ts with
  | nil => intro acc; simp
  | cons t rest ih =>
      intro acc
      rw [List.foldl_cons, ih, aggStep_total_expense]
      by_cases h : isInYM y m t && isExp t
      · simp [List.filter_cons, h, add_assoc]
      · simp [List.filter_cons, h]

theorem aggLoop_total_income (y : Int) (m : Nat) :
    ∀ (ts : List Transaction) (acc : AggAcc),
      ((List.foldl aggStep acc ts).data y m).total_income
        = (acc.data y m).total_income
          + ((ts.filter (fun t => isInYM y m t && !isExp t)).map (fun t => t.amount)).sum := by
  intro ts
  induction ts with
  | nil => intro acc; simp
  | cons t rest ih =>
      intro acc
      rw [List.foldl_cons, ih, aggStep_total_income]
      by_cases h : isInYM y m t && !isExp t
      · simp [List.filter_cons, h, add_assoc]
      · simp [List.filter_cons, h]

theorem aggLoop_cell_total (y : Int) (m : Nat) (main sub : String) :
    ∀ (ts : List Transaction) (acc : AggAcc),
      (((List.foldl aggStep acc ts).data y m).categories main sub).total
        = ((acc.data y m).categories main sub).total
          + ((ts.filter (isInCell y m main sub)).map (fun t => t.amount)).sum := by
  intro ts
  induction ts with
  | nil => intro acc; simp
  | cons t rest ih =>
      intro acc
      rw [List.foldl_cons, ih, aggStep_cell_total]
      by_cases h : isInCell y m main sub t
      · simp [List.filter_cons, h, add_assoc]
      · simp [List.filter_cons, h]

theorem aggLoop_cell_count (y : Int) (m : Nat) (main sub : String) :
    ∀ (ts : List Transaction) (acc : AggAcc),
      (((List.foldl aggStep acc ts).data y m).categories main sub).count
        = ((acc.data y m).categories main sub).count
          + (ts.filter (isInCell y m main sub)).length := by
  intro ts
  induction ts with
  | nil => intro acc; simp
  | cons t rest ih =>
      intro acc
      rw [List.foldl_cons, ih, aggStep_cell_count]
      by_cases h : isInCell y m main sub t
      · simp [List.filter_cons, h]
        omega
      · simp [List.filter_cons, h]

theorem aggLoop_cell_transactions (y : Int) (m : Nat) (main sub : String) :
    ∀ (ts : List Transaction) (acc : AggAcc),
      (((List.foldl aggStep acc ts).data y m).categories main sub).transactions
        = ((acc.data y m).categories main sub).transactions
          ++ ts.filter (isInCell y m main sub) := by
  intro ts
  induction ts with
  | nil => intro acc; simp
  | cons t rest ih =>
      intro acc
      rw [List.foldl_cons, ih, aggStep_cell_transactions]
      by_cases h : isInCell y m main sub t
      · simp [List.filter_cons, h]
      · simp [List.filter_cons, h]

theorem aggLoop_uncategorized :
    ∀ (ts : List Transaction) (acc : AggAcc),
      (List.foldl aggStep acc ts).uncategorized
        = acc.uncategorized ++ ts.filter isUncat := by
  intro ts
  induction ts with
  | nil => intro acc; simp
  | cons t rest ih =>
      intro acc
      rw [List.foldl_cons, ih]
      by_cases h : isUncat t
      · simp [aggStep, List.filter_cons, h]
      · simp [aggStep, List.filter_cons, h]

/-! ## The aggregate report in closed form -/

theorem aggregate_months (ts : List Transaction) :
    (aggregate ts).months = (aggData ts).data := rfl

theorem aggregate_monthKeys (ts : List Transaction) :
    (aggregate ts).monthKeys = fun y =>
      sortA (fstDedup ((ts.filter (fun t => t.date.year = y)).map (fun t => t.date.month))) := rfl

theorem aggregate_yearKeys (ts : List Transaction) :
    (aggregate ts).yearKeys = sortA (fstDedup (ts.map (fun t => t.date.year))) := rfl

theorem aggregate_monthCatMains (ts : List Transaction) :
    (aggregate ts).monthCatMains = fun y m =>
      fstDedup ((ts.filter (isInYM y m)).map resolvedMain) := rfl

theorem aggregate_monthCatSubs (ts : List Transaction) :
    (aggregate ts).monthCatSubs = fun y m main =>
      fstDedup (((ts.filter (isInYM y m)).filter (fun t => resolvedMain t = main)).map resolvedSub) := rfl

theorem aggregate_total_year (ts : List Transaction) (y : Int) :
    (aggregate ts).total_year y
      = ((aggregate ts).monthKeys y).foldl (fun a m => a + ((aggData ts).data y m).total) 0 := rfl

theorem aggregate_total_year_income (ts : List Transaction) (y : Int) :
    (aggregate ts).total_year_income y
      = ((aggregate ts).monthKeys y).foldl (fun a m => a + ((aggData ts).data y m).total_income) 0 := rfl

theorem aggregate_total_year_expense (ts : List Transaction) (y : Int) :
    (aggregate ts).total_year_expense y
      = ((aggregate ts).monthKeys y).foldl (fun a m => a + ((aggData ts).data y m).total_expense) 0 := rfl

theorem aggregate_uncategorized (ts : List Transaction) :
    (aggregate ts).uncategorized = (aggData ts).uncategorized := rfl

theorem months_total (ts : List Transaction) (y : Int) (m : Nat) :
    ((aggregate ts).months y m).total
      = ((ts.filter (isInYM y m)).map (fun t => t.amount)).sum := by
  rw [aggregate_months, aggData, aggLoop_total]
  simp [aggInit, month0]

theorem months_total_expense (ts : List Transaction) (y : Int) (m : Nat) :
    ((aggregate ts).months y m).total_expense
      = ((ts.filter (fun t => isInYM y m t && isExp t)).map (fun t => t.amount)).sum := by
  rw [aggregate_months, aggData, aggLoop_total_expense]
  simp [aggInit, month0]

theorem months_total_income (ts : List Transaction) (y : Int) (m : Nat) :
    ((aggregate ts).months y m).total_income
      = ((ts.filter (fun t => isInYM y m t && !isExp t)).map (fun t => t.amount)).sum := by
  rw [aggregate_months, aggData, aggLoop_total_income]
  simp [aggInit, month0]

theorem months_cell_total (ts : List Transaction) (y : Int) (m : Nat) (main sub : String) :
    (((aggregate ts).months y m).categories main sub).total
      = ((ts.filter (isInCell y m main sub)).map (fun t => t.amount)).sum := by
  rw [aggregate_months, aggData, aggLoop_cell_total]
  simp [aggInit, month0, cell0]

theorem months_cell_count (ts : List Transaction) (y : Int) (m : Nat) (main sub : String) :
    (((aggregate ts).months y m).categories main sub).count
      = (ts.filter (isInCell y m main sub)).length := by
  rw [aggregate_months, aggData, aggLoop_cell_count]
  simp [aggInit, month0, cell0]

theorem months_cell_transactions (ts : List Transaction) (y : Int) (m : Nat) (main sub : String) :
    (((aggregate ts).months y m).categories main sub).transactions
      = ts.filter (isInCell y m main sub) := by
  rw [aggregate_months, aggData, aggLoop_cell_transactions]
  simp [aggInit, month0, cell0]

theorem uncategorized_eq (ts : List Transaction) :
    (aggregate ts).uncategorized = ts.filter isUncat := by
  rw [aggregate_uncategorized, aggData, aggLoop_uncategorized]
  simp [aggInit]

theorem isInYM_eq (y : Int) (m : Nat) (t : Transaction) :
    isInYM y m t = (decide (t.date.year = y) && decide (t.date.month = m)) := by
  by_cases h1 : t.date.year = y <;> by_cases h2 : t.date.month = m <;> simp [isInYM, h1, h2]

theorem isInCell_eq (y : Int) (m : Nat) (main sub : String) (t : Transaction) :
    isInCell y m main sub t
      = (isInYM y m t && (decide (resolvedMain t = main) && decide (resolvedSub t = sub))) := by
  by_cases h1 : isInYM y m t <;> by_cases h2 : resolvedMain t = main
    <;> by_cases h3 : resolvedSub t = sub <;> simp [isInCell, h1, h2, h3]

theorem filter_isInCell (ts : List Transaction) (y : Int) (m : Nat) (main sub : String) :
    ts.filter (isInCell y m main sub)
      = ((ts.filter (isInYM y m)).filter (fun t => resolvedMain t = main)).filter
          (fun t => resolvedSub t = sub) := by
  rw [filter_split2, filter_split2]
  exact List.filter_congr (fun x _ => isInCell_eq y m main sub x)

theorem mem_monthKeys (ts : List Transaction) (y : Int) (m : Nat) :
    m ∈ (aggregate ts).monthKeys y
      ↔ ∃ t ∈ ts, t.date.year = y ∧ t.date.month = m := by
  rw [aggregate_monthKeys]
  rw [mem_sortA, mem_fstDedup]
  constructor
  · intro h
    rcases List.mem_map.mp h with ⟨t, ht, rfl⟩
    rcases List.mem_filter.mp ht with ⟨htl, hty⟩
    exact ⟨t, htl, by simpa using hty, rfl⟩
  · rintro ⟨t, htl, hty, rfl⟩
    exact List.mem_map.mpr ⟨t, List.mem_filter.mpr ⟨htl, by simpa using hty⟩, rfl⟩

theorem mem_yearKeys (ts : List Transaction) (y : Int) :
    y ∈ (aggregate ts).yearKeys ↔ ∃ t ∈ ts, t.date.year = y := by
  rw [aggregate_yearKeys, mem_sortA, mem_fstDedup]
  constructor
  · intro h
    rcases List.mem_map.mp h with ⟨t, ht, rfl⟩
    exact ⟨t, ht, rfl⟩
  · rintro ⟨t, htl, rfl⟩
    exact List.mem_map.mpr ⟨t, htl, rfl⟩

theorem nodup_monthKeys (ts : List Transaction) (y : Int) :
    ((aggregate ts).monthKeys y).Nodup := by
  rw [aggregate_monthKeys]
  exact (sortA_perm _).symm.nodup (nodup_fstDedup _)

theorem nodup_yearKeys (ts : List Transaction) :
    ((aggregate ts).yearKeys).Nodup := by
  rw [aggregate_yearKeys]
  exact (sortA_perm _).symm.nodup (nodup_fstDedup _)

theorem month_category_sum (ts : List Transaction) (y : Int) (m : Nat) :
    (((aggregate ts).monthCatMains y m).map (fun main =>
      (((aggregate ts).monthCatSubs y m main).map (fun sub =>
        (((aggregate ts).months y m).categories main sub).total)).sum)).sum
    = ((aggregate ts).months y m).total := by
  have hinner : ∀ main,
      (((aggregate ts).monthCatSubs y m main).map (fun sub =>
        (((aggregate ts).months y m).categories main sub).total)).sum
      = (((ts.filter (isInYM y m)).filter (fun t => resolvedMain t = main)).map
          (fun t => t.amount)).sum := by
    intro main
    have h2 : ∀ sub, (((aggregate ts).months y m).categories main sub).total
        = ((((ts.filter (isInYM y m)).filter (fun t => resolvedMain t = main)).filter
            (fun t => resolvedSub t = sub)).map (fun t => t.amount)).sum := by
      intro sub
      rw [months_cell_total, filter_isInCell]
    rw [aggregate_monthCatSubs]
    rw [List.map_congr_left (fun sub _ => h2 sub)]
    exact sum_partition resolvedSub (fun t => t.amount) _ (nodup_fstDedup _) _
      (fun x hx => (mem_fstDedup _ _).mpr (List.mem_map.mpr ⟨x, hx, rfl⟩))
  rw [List.map_congr_left (fun main _ => hinner main)]
  rw [aggregate_monthCatMains, months_total]
  exact sum_partition resolvedMain (fun t => t.amount) _ (nodup_fstDedup _) _
    (fun x hx => (mem_fstDedup _ _).mpr (List.mem_map.mpr ⟨x, hx, rfl⟩))

theorem year_expense_sum (ts : List Transaction) (y : Int) :
    (aggregate ts).total_year_expense y
      = ((ts.filter (fun t => decide (t.date.year = y) && isExp t)).map (fun t => t.amount)).sum := by
  rw [aggregate_total_year_expense, foldl_add_sum, zero_add]
  have hm : ∀ m, ((aggData ts).data y m).total_expense
      = (((ts.filter (fun t => decide (t.date.year = y) && isExp t)).filter
          (fun t => t.date.month = m)).map (fun t => t.amount)).sum := by
    intro m
    rw [← aggregate_months, months_total_expense]
    have hfil : ts.filter (fun t => isInYM y m t && isExp t)
        = (ts.filter (fun t => decide (t.date.year = y) && isExp t)).filter
            (fun t => t.date.month = m) := by
      rw [filter_split2]
      refine (List.filter_congr ?_)
      intro x _
      by_cases h1 : x.date.year = y <;> by_cases h2 : x.date.month = m
        <;> by_cases h3 : isExp x <;> simp [isInYM, h1, h2, h3]
    rw [hfil]
  rw [List.map_congr_left (fun m _ => hm m)]
  exact sum_partition (fun t : Transaction => t.date.month) (fun t : Transaction => t.amount) _
    (nodup_monthKeys ts y) _
    (fun x hx => by
      rcases List.mem_filter.mp hx with ⟨hxl, hxp⟩
      simp at hxp
      exact (mem_monthKeys ts y x.date.month).mpr ⟨x, hxl, hxp.1, rfl⟩)

theorem year_income_sum (ts : List Transaction) (y : Int) :
    (aggregate ts).total_year_income y
      = ((ts.filter (fun t => decide (t.date.year = y) && !isExp t)).map (fun t => t.amount)).sum := by
  rw [aggregate_total_year_income, foldl_add_sum, zero_add]
  have hm : ∀ m, ((aggData ts).data y m).total_income
      = (((ts.filter (fun t => decide (t.date.year = y) && !isExp t)).filter
          (fun t => t.date.month = m)).map (fun t => t.amount)).sum := by
    intro m
    rw [← aggregate_months, months_total_income]
    have hfil : ts.filter (fun t => isInYM y m t && !isExp t)
        = (ts.filter (fun t => decide (t.date.year = y) && !isExp t)).filter
            (fun t => t.date.month = m) := by
      rw [filter_split2]
      refine (List.filter_congr ?_)
      intro x _
      by_cases h1 : x.date.year = y <;> by_cases h2 : x.date.month = m
        <;> by_cases h3 : isExp x <;> simp [isInYM, h1, h2, h3]
    rw [hfil]
  rw [List.map_congr_left (fun m _ => hm m)]
  exact sum_partition (fun t : Transaction => t.date.month) (fun t : Transaction => t.amount) _
    (nodup_monthKeys ts y) _
    (fun x hx => by
      rcases List.mem_filter.mp hx with ⟨hxl, hxp⟩
      simp at hxp
      exact (mem_monthKeys ts y x.date.month).mpr ⟨x, hxl, hxp.1, rfl⟩)

theorem total_expense_conservation (ts : List Transaction) :
    (((aggregate ts).yearKeys).map (aggregate ts).total_year_expense).sum
      = ((ts.filter isExp).map (fun t => t.amount)).sum := by
  have hswap : ∀ y, ts.filter (fun t => decide (t.date.year = y) && isExp t)
      = (ts.filter isExp).filter (fun t => t.date.year = y) := by
    intro y
    rw [filter_split2]
    refine (List.filter_congr ?_)
    intro x _
    by_cases h1 : x.date.year = y <;> by_cases h2 : isExp x <;> simp [h1, h2]
  rw [List.map_congr_left (fun y _ => by rw [year_expense_sum ts y, hswap y])]
  exact sum_partition (fun t : Transaction => t.date.year) (fun t : Transaction => t.amount) _
    (nodup_yearKeys ts) _
    (fun x hx => (mem_yearKeys ts x.date.year).mpr ⟨x, (List.mem_filter.mp hx).1, rfl⟩)

theorem total_income_conservation (ts : List Transaction) :
    (((aggregate ts).yearKeys).map (aggregate ts).total_year_income).sum
      = ((ts.filter (fun t => t.transaction_type = TxType.income)).map (fun t => t.amount)).sum := by
  have hswap : ∀ y, ts.filter (fun t => decide (t.date.year = y) && !isExp t)
      = (ts.filter (fun t => !isExp t)).filter (fun t => t.date.year = y) := by
    intro y
    rw [filter_split2]
    refine (List.filter_congr ?_)
    intro x _
    by_cases h1 : x.date.year = y <;> by_cases h2 : isExp x <;> simp [h1, h2]
  have hinc : ts.filter (fun t => !isExp t)
      = ts.filter (fun t => t.transaction_type = TxType.income) := by
    refine (List.filter_congr ?_)
    intro x _
    cases hx : x.transaction_type <;> simp [isExp, hx]
  rw [List.map_congr_left (fun y _ => by rw [year_income_sum ts y, hswap y])]
  rw [← hinc]
  exact sum_partition (fun t : Transaction => t.date.year) (fun t : Transaction => t.amount) _
    (nodup_yearKeys ts) _
    (fun x hx => (mem_yearKeys ts x.date.year).mpr ⟨x, (List.mem_filter.mp hx).1, rfl⟩)

/-! ## Claim theorems -/

/-- C1: for every input transaction list, in the report returned by
`Aggregator.aggregate`: within each month the sum of all category-cell
totals equals that month's total; each year's `total_year`,
`total_year_income` and `total_year_expense` equal the sums of the
corresponding monthly fields; the sum over all years of
`total_year_expense` equals the sum of amounts of all expense-type input
transactions, and analogously for income; and every transaction appears
(with its input multiplicity) in exactly one
`(year, month, category_main, category_sub)` cell — namely the cell of
its own year, month and resolved categories, and in no other cell. -/
theorem c1_aggregation_invariants (ts : List Transaction) :
    (∀ y m, (((aggregate ts).monthCatMains y m).map (fun main =>
        (((aggregate ts).monthCatSubs y m main).map (fun sub =>
          (((aggregate ts).months y m).categories main sub).total)).sum)).sum
      = ((aggregate ts).months y m).total)
  ∧ (∀ y, (aggregate ts).total_year y
        = (((aggregate ts).monthKeys y).map (fun m => ((aggregate ts).months y m).total)).sum
    ∧ (aggregate ts).total_year_income y
        = (((aggregate ts).monthKeys y).map (fun m => ((aggregate ts).months y m).total_income)).sum
    ∧ (aggregate ts).total_year_expense y
        = (((aggregate ts).monthKeys y).map (fun m => ((aggregate ts).months y m).total_expense)).sum)
  ∧ ((((aggregate ts).yearKeys).map (aggregate ts).total_year_expense).sum
        = ((ts.filter isExp).map (fun t => t.amount)).sum)
  ∧ ((((aggregate ts).yearKeys).map (aggregate ts).total_year_income).sum
        = ((ts.filter (fun t => t.transaction_type = TxType.income)).map (fun t => t.amount)).sum)
  ∧ (∀ y m main sub, (((aggregate ts).months y m).categories main sub).transactions
        = ts.filter (isInCell y m main sub))
  ∧ (∀ t y m main sub,
        ((((aggregate ts).months y m).categories main sub).transactions).count t
          = if isInCell y m main sub t then ts.count t else 0) := by
  refine ⟨fun y m => month_category_sum ts y m, fun y => ⟨?_, ?_, ?_⟩,
    total_expense_conservation ts, total_income_conservation ts,
    fun y m main sub => months_cell_transactions ts y m main sub,
    fun t y m main sub => ?_⟩
  · rw [aggregate_total_year, foldl_add_sum, zero_add, aggregate_months]
  · rw [aggregate_total_year_income, foldl_add_sum, zero_add, aggregate_months]
  · rw [aggregate_total_year_expense, foldl_add_sum, zero_add, aggregate_months]
  · rw [months_cell_transactions, count_filter_eq]

/-- C2 (amended): the `uncategorized` list of the report is exactly the
sublist of input transactions whose raw `category_sub` field equals the
string `"Nieprzypisane"` (in input order, with multiplicity).  A
transaction whose `category_sub` is null is defaulted into the
`"Nieprzypisane"` category cell but is NOT appended to the uncategorized
list, because the code compares the field before applying the default. -/
theorem c2_uncategorized_exact (ts : List Transaction) :
    (aggregate ts).uncategorized = ts.filter isUncat :=
  uncategorized_eq ts

/-- C2 counterexample: a transaction with a null `category_sub` has
resolved subcategory `"Nieprzypisane"` and lands in the
`("Inne wydatki", "Nieprzypisane")` cell, yet the uncategorized list of
the report is empty — refuting the claim that every transaction whose
RESOLVED `category_sub` is the sentinel appears in the uncategorized
list. -/
theorem c2_counterexample :
    resolvedSub txNullSub = "Nieprzypisane"
    ∧ (((aggregate [txNullSub]).months 2024 1).categories "Inne wydatki"
        "Nieprzypisane").transactions = [txNullSub]
    ∧ (aggregate [txNullSub]).uncategorized = [] :=
  ⟨by decide, by decide, by decide⟩

theorem foldl_preserve {σ γ : Type} (P : σ → Prop) (f : σ → γ → σ)
    (hf : ∀ s x, P s → P (f s x)) :
    ∀ (l : List γ) (s : σ), P s → P (l.foldl f s) := by
  intro l
  induction l with
  | nil => intro s hs; simpa using hs
  | cons a rest ih =>
      intro s hs
      rw [List.foldl_cons]
      exact ih _ (hf s a hs)

theorem topStep_inv (r : Report) (y : Int) (d : List (String × CatTot))
    (hinv : ∀ p ∈ d, p.1 = p.2.category_main ++ " > " ++ p.2.category_sub)
    (x : String × String) :
    ∀ p ∈ topStep r y d x, p.1 = p.2.category_main ++ " > " ++ p.2.category_sub := by
  intro p hp
  rw [topStep] at hp
  rcases hh : dictGet d (x.1 ++ " > " ++ x.2) with _ | c
  · rw [hh] at hp
    simp only [] at hp
    rcases mem_dictSet _ _ _ _ hp with h | h
    · rw [h]
    · exact hinv p h
  · rw [hh] at hp
    simp only [] at hp
    rcases mem_dictSet _ _ _ _ hp with h | h
    · rw [h]
    · exact hinv p h

theorem category_totals_inv (r : Report) (year : Option Int) :
    ∀ p ∈ category_totals r year, p.1 = p.2.category_main ++ " > " ++ p.2.category_sub := by
  unfold category_totals
  exact foldl_preserve
    (fun d => ∀ p ∈ d, p.1 = p.2.category_main ++ " > " ++ p.2.category_sub)
    _
    (fun d y hd => foldl_preserve _ _ (fun d' x hd' => topStep_inv r y d' hd' x) _ d hd)
    _ [] (by simp)

/-- C7: for every report and arguments, `get_top_expenses` returns at
most `limit` entries, sorted by `total` in descending order (so any
total of any earlier entry is at least the total of any later one, in particular first
vs last), the underlying stable sort keeps entries of equal total in
their original encounter order (for every total value, filtering the
sorted `category_totals` items to that total yields exactly the filtered
unsorted items, in dict insertion order), and each returned entry is the
flattened record whose `category` string is
`category_main ++ " > " ++ category_sub`. -/
theorem c7_top_expenses (r : Report) (year : Option Int) (limit : Nat) :
    (get_top_expenses r year limit).length ≤ limit
  ∧ (get_top_expenses r year limit).Pairwise (fun a b => b.total ≤ a.total)
  ∧ (∀ q : Money, (sorted_categories r year).filter (fun p => p.2.total = q)
      = (category_totals r year).filter (fun p => p.2.total = q))
  ∧ (∀ e ∈ get_top_expenses r year limit,
      e.category = e.category_main ++ " > " ++ e.category_sub) := by
  refine ⟨?_, ?_, ?_, ?_⟩
  · rw [get_top_expenses, List.length_map, List.length_take]
    exact min_le_left _ _
  · rw [get_top_expenses]
    refine List.Pairwise.map _ (fun a b h => h) ?_
    exact List.Pairwise.sublist (List.take_sublist _ _)
      (sortD_sorted (fun p => p.2.total) (category_totals r year))
  · intro q
    exact sortD_filter_key (fun p => p.2.total) q (category_totals r year)
  · intro e he
    rw [get_top_expenses] at he
    rcases List.mem_map.mp he with ⟨p, hp, rfl⟩
    have hp2 : p ∈ sortD (fun p => p.2.total) (category_totals r year) :=
      (List.take_sublist _ _).subset hp
    have hp3 : p ∈ category_totals r year :=
      (sortD_perm (fun p => p.2.total) (category_totals r year)).mem_iff.mp hp2
    simpa using category_totals_inv r year p hp3

/-- C7 witness: the theorem applied to the concrete two-transaction
report with `limit = 1`, together with a concrete evaluation: the single
returned entry is the fuel category with total 250. -/
theorem c7_witness :
    get_top_expenses (aggregate [txGroceries, txFuel]) none 1
      = [{ category := "Transport > Paliwo", category_main := "Transport"
         , category_sub := "Paliwo", total := 250, count := 1 }]
    ∧ (get_top_expenses (aggregate [txGroceries, txFuel]) none 1).length ≤ 1
    ∧ ({ category := "Transport > Paliwo", category_main := "Transport"
       , category_sub := "Paliwo", total := 250, count := 1 } : TopEntry).category
        = "Transport" ++ " > " ++ "Paliwo" :=
  ⟨by decide,
   (c7_top_expenses (aggregate [txGroceries, txFuel]) none 1).1,
   (c7_top_expenses (aggregate [txGroceries, txFuel]) none 1).2.2.2 _ (by decide)⟩

/-- C8 (amended): for every report produced by `aggregate`,
`get_monthly_summary` and `get_category_summary` are total functions
(the model never raises by construction, mirroring the dict `.get`
fallbacks): an absent year or month yields the empty structure; a
present year and month yield the stored month cell; a requested
non-empty main category that is absent yields the empty structure, and a
present one yields its subtree; a null `category_main` returns the full
yearly tree — and so does the EMPTY STRING, because the code guards with
a falsiness test (`if category_main:`), so requesting the empty-string
category (never a key of an aggregate report) returns the full tree
rather than an empty structure. -/
theorem c8_lookup_misses (ts : List Transaction) (y : Int) (m : Nat) (c : String) :
    ((∀ t ∈ ts, ¬(t.date.year = y ∧ t.date.month = m)) →
        get_monthly_summary (aggregate ts) y m = none)
  ∧ (y ∈ (aggregate ts).yearKeys → m ∈ (aggregate ts).monthKeys y →
        get_monthly_summary (aggregate ts) y m = some ((aggregate ts).months y m))
  ∧ ((∀ t ∈ ts, ¬(t.date.year = y)) →
        get_category_summary (aggregate ts) y none = CatSummary.empty)
  ∧ (c ≠ "" → c ∉ (aggregate ts).yearCatMains y →
        get_category_summary (aggregate ts) y (some c) = CatSummary.empty)
  ∧ (y ∈ (aggregate ts).yearKeys → c ≠ "" → c ∈ (aggregate ts).yearCatMains y →
        get_category_summary (aggregate ts) y (some c)
          = CatSummary.single (((aggregate ts).yearCatSubs y c).map
              (fun sub => (sub, (aggregate ts).categories_year y c sub))))
  ∧ (y ∈ (aggregate ts).yearKeys →
        get_category_summary (aggregate ts) y none
          = CatSummary.full (yearCatTree (aggregate ts) y))
  ∧ (y ∈ (aggregate ts).yearKeys →
        get_category_summary (aggregate ts) y (some "")
          = CatSummary.full (yearCatTree (aggregate ts) y)) := by
  refine ⟨?_, ?_, ?_, ?_, ?_, ?_, ?_⟩
  · intro h
    rw [get_monthly_summary]
    by_cases hy : y ∈ (aggregate ts).yearKeys
    · rw [if_pos hy, if_neg]
      intro hm
      rcases (mem_monthKeys ts y m).mp hm with ⟨t, htl, hty, htm⟩
      exact h t htl ⟨hty, htm⟩
    · rw [if_neg hy]
  · intro hy hm
    rw [get_monthly_summary, if_pos hy, if_pos hm]
  · intro h
    rw [get_category_summary, if_neg]
    intro hy
    rcases (mem_yearKeys ts y).mp hy with ⟨t, htl, hty⟩
    exact h t htl hty
  · intro hc hmem
    rw [get_category_summary]
    by_cases hy : y ∈ (aggregate ts).yearKeys
    · rw [if_pos hy]
      simp only [if_neg hc, if_neg hmem]
    · rw [if_neg hy]
  · intro hy hc hmem
    rw [get_category_summary, if_pos hy]
    simp only [if_neg hc, if_pos hmem]
  · intro hy
    rw [get_category_summary, if_pos hy]
  · intro hy
    rw [get_category_summary, if_pos hy]
    simp

/-- C8 counterexample: in the report of a single categorized
transaction, the empty string is not among the main-category
keys, yet `get_category_summary` with the empty-string filter returns
the full (non-empty) tree instead of the empty structure, because the
falsiness guard treats the empty string like a missing argument. -/
theorem c8_counterexample :
    "" ∉ (aggregate [txGroceries]).yearCatMains 2024
    ∧ get_category_summary (aggregate [txGroceries]) 2024 (some "") ≠ CatSummary.empty :=
  ⟨by decide, by decide⟩

/-- C8 witness: the amended theorem applied at a concrete report: a
present year and month return the stored cell, and an absent non-empty
main category returns the empty structure. -/
theorem c8_witness :
    get_monthly_summary (aggregate [txGroceries]) 2024 1
      = some ((aggregate [txGroceries]).months 2024 1)
    ∧ get_category_summary (aggregate [txGroceries]) 2024 (some "Brak") = CatSummary.empty :=
  ⟨(c8_lookup_misses [txGroceries] 2024 1 "Brak").2.1 (by decide) (by decide),
   (c8_lookup_misses [txGroceries] 2024 1 "Brak").2.2.2.1 (by decide) (by decide)⟩

/-! ## Rule engine lemmas -/

theorem dictGet_dictIncr_self {κ : Type} [DecidableEq κ] (d : List (κ × Nat)) (k : κ) :
    dictGet (dictIncr d k) k = some ((dictGet d k).getD 0 + 1) := by
  rw [dictIncr]
  exact dictGet_dictSet_self d k _

theorem dictGet_dictIncr_ne {κ : Type} [DecidableEq κ] (d : List (κ × Nat)) (k k' : κ)
    (h : k' ≠ k) : dictGet (dictIncr d k) k' = dictGet d k' := by
  rw [dictIncr]
  exact dictGet_dictSet_ne d k k' _ h

theorem categorize_cache_hit (O : RegexOracle) (s : EngineState) (t : Transaction)
    (v : String × String) (h : dictGet s.cache (cacheKey t) = some v) :
    categorize O s t = (v, s) := by
  simp only [categorize, h]

theorem categorize_match (O : RegexOracle) (s : EngineState) (t : Transaction)
    (i : Nat) (r : Rule)
    (hmiss : dictGet s.cache (cacheKey t) = none)
    (hm : findRuleFrom O s.compiled_patterns "counterparty" t s.rules 0 = some (i, r)) :
    categorize O s t
      = ((r.category_main, r.category_sub),
         { s with stats := dictIncr s.stats (r.name.getD ("rule_" ++ toString i))
                , cache := dictSet s.cache (cacheKey t) (r.category_main, r.category_sub) }) := by
  simp only [categorize, hmiss, hm]

theorem categorize_nomatch (O : RegexOracle) (s : EngineState) (t : Transaction)
    (hmiss : dictGet s.cache (cacheKey t) = none)
    (hm : findRuleFrom O s.compiled_patterns "counterparty" t s.rules 0 = none) :
    categorize O s t = (defaultPair, s) := by
  simp only [categorize, hmiss, hm]

theorem categorize_stored_val (O : RegexOracle) (s : EngineState) (t : Transaction)
    (v : String × String)
    (h : dictGet ((categorize O s t).2).cache (cacheKey t) = some v) :
    v = (categorize O s t).1 := by
  rcases hc : dictGet s.cache (cacheKey t) with _ | w
  · rcases hm : findRuleFrom O s.compiled_patterns "counterparty" t s.rules 0 with _ | ir
    · rw [categorize_nomatch O s t hc hm] at h ⊢
      dsimp only at h
      rw [hc] at h
      cases h
    · rw [categorize_match O s t ir.1 ir.2 hc (by rw [← hm])] at h ⊢
      dsimp only at h
      rw [dictGet_dictSet_self] at h
      injection h with h'
      exact h'.symm
  · rw [categorize_cache_hit O s t w hc] at h ⊢
    dsimp only at h
    rw [hc] at h
    injection h with h'
    exact h'.symm

theorem should_exclude_none (O : RegexOracle) (s : EngineState) (t : Transaction)
    (h : findRuleFrom O s.compiled_exclude_patterns "description" t s.exclude_rules 0 = none) :
    should_exclude O s t = ((false, none), s) := by
  simp only [should_exclude, h]

theorem should_exclude_match (O : RegexOracle) (s : EngineState) (t : Transaction)
    (i : Nat) (r : Rule)
    (h : findRuleFrom O s.compiled_exclude_patterns "description" t s.exclude_rules 0 = some (i, r)) :
    should_exclude O s t
      = ((true, some (r.reason.getD (r.name.getD ("exclude_" ++ toString i)))),
         { s with exclude_stats := dictIncr s.exclude_stats (r.name.getD ("exclude_" ++ toString i)) }) := by
  simp only [should_exclude, h]

theorem findRuleFrom_none (O : RegexOracle) (compiled : List (Nat × (String × Bool)))
    (dflt : String) (t : Transaction) :
    ∀ (l : List Rule) (i : Nat), findRuleFrom O compiled dflt t l i = none →
      ∀ j r, l[j]? = some r →
        matchValue O compiled r (i + j) (fieldValueOf r dflt t) = false := by
  intro l
  induction l with
  | nil =>
      intro i _ j r hj
      simp at hj
  | cons r0 rest ih =>
      intro i hnone j r hj
      rw [findRuleFrom] at hnone
      by_cases hm : matchValue O compiled r0 i (fieldValueOf r0 dflt t) = true
      · rw [if_pos hm] at hnone
        cases hnone
      · rw [if_neg hm] at hnone
        cases j with
        | zero =>
            rw [List.getElem?_cons_zero] at hj
            injection hj with hj'
            subst hj'
            simpa using hm
        | succ j' =>
            rw [List.getElem?_cons_succ] at hj
            have h2 := ih (i + 1) hnone j' r hj
            have heq : i + (j' + 1) = (i + 1) + j' := by omega
            rw [heq]
            exact h2

theorem findRuleFrom_some (O : RegexOracle) (compiled : List (Nat × (String × Bool)))
    (dflt : String) (t : Transaction) :
    ∀ (l : List Rule) (i j : Nat) (r : Rule),
      findRuleFrom O compiled dflt t l i = some (j, r) →
      i ≤ j ∧ l[j - i]? = some r
      ∧ matchValue O compiled r j (fieldValueOf r dflt t) = true
      ∧ ∀ kk r', kk < j - i → l[kk]? = some r' →
          matchValue O compiled r' (i + kk) (fieldValueOf r' dflt t) = false := by
  intro l
  induction l with
  | nil =>
      intro i j r h
      rw [findRuleFrom] at h
      cases h
  | cons r0 rest ih =>
      intro i j r h
      rw [findRuleFrom] at h
      by_cases hm : matchValue O compiled r0 i (fieldValueOf r0 dflt t) = true
      · rw [if_pos hm] at h
        injection h with h'
        injection h' with hj hr
        subst hj
        subst hr
        refine ⟨le_refl i, ?_, hm, ?_⟩
        · rw [Nat.sub_self, List.getElem?_cons_zero]
        · intro kk r' hkk _
          omega
      · rw [if_neg hm] at h
        obtain ⟨hij, hget, hmatch, hearlier⟩ := ih (i + 1) j r h
        refine ⟨by omega, ?_, hmatch, ?_⟩
        · have heq : j - i = (j - (i + 1)) + 1 := by omega
          rw [heq, List.getElem?_cons_succ]
          exact hget
        · intro kk r' hkk hkget
          cases kk with
          | zero =>
              rw [List.getElem?_cons_zero] at hkget
              injection hkget with hk'
              subst hk'
              simpa using hm
          | succ kk' =>
              rw [List.getElem?_cons_succ] at hkget
              have h2 := hearlier kk' r' (by omega) hkget
              have heq : i + (kk' + 1) = (i + 1) + kk' := by omega
              rw [heq]
              exact h2

theorem startsWithL_nil_left {α : Type} [DecidableEq α] (x : List α) :
    startsWithL ([] : List α) x = x.isEmpty := by
  cases x <;> rfl

theorem isEmpty_map {α β : Type} (f : α → β) (x : List α) :
    (x.map f).isEmpty = x.isEmpty := by
  cases x <;> rfl

theorem isEmpty_reverse {α : Type} (x : List α) : x.reverse.isEmpty = x.isEmpty := by
  cases x with
  | nil => rfl
  | cons a l =>
      have h1 : (a :: l).reverse = l.reverse ++ [a] := by simp
      rw [h1]
      cases h : l.reverse ++ [a] with
      | nil => exact absurd h (by simp)
      | cons b m => rfl

theorem data_isEmpty (p : String) : p.data.isEmpty = decide (p = "") := by
  rcases p with ⟨pd⟩
  cases pd with
  | nil => rfl
  | cons c cs => rfl

theorem lowerStr_data (p : String) : (lowerStr p).data = p.data.map Char.toLower := rfl

theorem lowerStr_empty (p : String) : decide (lowerStr p = "") = decide (p = "") := by
  rw [← data_isEmpty, ← data_isEmpty, lowerStr_data, isEmpty_map]

theorem strIncl_empty (p : String) : strIncl p "" = decide (p = "") := by
  rw [strIncl]
  show hasSubL [] p.data = decide (p = "")
  rw [hasSubL, data_isEmpty]

theorem strStarts_empty (p : String) : strStarts "" p = decide (p = "") := by
  rw [strStarts]
  show startsWithL [] p.data = decide (p = "")
  rw [startsWithL_nil_left, data_isEmpty]

theorem strEnds_empty (p : String) : strEnds "" p = decide (p = "") := by
  rw [strEnds]
  show startsWithL (List.reverse []) p.data.reverse = decide (p = "")
  rw [List.reverse_nil, startsWithL_nil_left, isEmpty_reverse, data_isEmpty]

theorem lowerStr_empty_str : lowerStr "" = "" := rfl

theorem matchValue_empty (O : RegexOracle) (compiled : List (Nat × (String × Bool)))
    (rule : Rule) (idx : Nat) :
    matchValue O compiled rule idx "" = patternMatchesEmpty O compiled rule idx := by
  rw [matchValue, patternMatchesEmpty]
  by_cases hcs : rule.case_sensitive.getD false
  · by_cases h1 : rule.match_type.getD "contains" = "regex"
    · simp [hcs, h1]
    · by_cases h2 : rule.match_type.getD "contains" = "contains"
      · simp [hcs, h2, strIncl_empty]
      · by_cases h3 : rule.match_type.getD "contains" = "exact"
        · simp [hcs, h2, h3]
        · by_cases h4 : rule.match_type.getD "contains" = "startswith"
          · simp [hcs, h2, h3, h4, strStarts_empty]
          · by_cases h5 : rule.match_type.getD "contains" = "endswith"
            · simp [hcs, h2, h3, h4, h5, strEnds_empty]
            · simp [hcs, h1, h2, h3, h4, h5]
  · by_cases h1 : rule.match_type.getD "contains" = "regex"
    · simp [hcs, h1, lowerStr_empty_str]
    · by_cases h2 : rule.match_type.getD "contains" = "contains"
      · simp [hcs, h2, strIncl_empty, lowerStr_empty, lowerStr_empty_str]
      · by_cases h3 : rule.match_type.getD "contains" = "exact"
        · simp [hcs, h2, h3, lowerStr_empty, lowerStr_empty_str]
        · by_cases h4 : rule.match_type.getD "contains" = "startswith"
          · simp [hcs, h2, h3, h4, strStarts_empty, lowerStr_empty, lowerStr_empty_str]
          · by_cases h5 : rule.match_type.getD "contains" = "endswith"
            · simp [hcs, h2, h3, h4, h5, strEnds_empty, lowerStr_empty, lowerStr_empty_str]
            · simp [hcs, h1, h2, h3, h4, h5]

theorem fieldValueOf_default_cp (rule : Rule) (t : Transaction)
    (hf : rule.field = none) : fieldValueOf rule "counterparty" t = t.counterparty := by
  rw [fieldValueOf, hf]
  rfl

theorem fieldValueOf_default_desc (rule : Rule) (t : Transaction)
    (hf : rule.field = none) : fieldValueOf rule "description" t = t.description := by
  rw [fieldValueOf, hf]
  rfl

theorem fieldValueOf_other (rule : Rule) (dflt : String) (t : Transaction) (f : String)
    (hf : rule.field = some f) (h1 : f ≠ "counterparty") (h2 : f ≠ "description") :
    fieldValueOf rule dflt t = "" := by
  rw [fieldValueOf, hf]
  show (if f = "counterparty" then t.counterparty
    else if f = "description" then t.description else "") = ""
  rw [if_neg h1, if_neg h2]

/-- C3: if a `categorize` call on `t₁` has left a result `v` stored in
the cache under the case-folded key of `t₁`, then a subsequent
`categorize` call with any transaction `t₂` carrying the same
case-folded `(counterparty, description)` key returns exactly that
cached pair, leaves the whole engine state — in particular the
usage-statistics counters — unchanged, and the cached pair is the pair
the first call returned. -/
theorem c3_cache_hit_frame (O : RegexOracle) (s : EngineState) (t₁ t₂ : Transaction)
    (v : String × String)
    (hkey : cacheKey t₂ = cacheKey t₁)
    (hstored : dictGet ((categorize O s t₁).2).cache (cacheKey t₁) = some v) :
    categorize O ((categorize O s t₁).2) t₂ = (v, (categorize O s t₁).2)
    ∧ v = (categorize O s t₁).1
    ∧ ((categorize O ((categorize O s t₁).2) t₂).2).stats = ((categorize O s t₁).2).stats := by
  have hhit : categorize O ((categorize O s t₁).2) t₂ = (v, (categorize O s t₁).2) := by
    apply categorize_cache_hit
    rw [hkey]
    exact hstored
  exact ⟨hhit, categorize_stored_val O s t₁ v hstored, by rw [hhit]⟩

/-- C3 witness: the case-sensitive engine after categorizing `Shop`
holds `("Zakupy", "Sklep")` in the cache; the second call with the
lower-cased twin returns it and leaves the state unchanged. -/
theorem c3_witness :
    (cacheKey tShopLower = cacheKey tShopUpper
     ∧ dictGet ((categorize inclOracle engineCS tShopUpper).2).cache (cacheKey tShopUpper)
         = some ("Zakupy", "Sklep"))
    ∧ categorize inclOracle ((categorize inclOracle engineCS tShopUpper).2) tShopLower
        = (("Zakupy", "Sklep"), (categorize inclOracle engineCS tShopUpper).2) :=
  ⟨⟨by decide, by decide⟩,
   (c3_cache_hit_frame inclOracle engineCS tShopUpper tShopLower ("Zakupy", "Sklep")
     (by decide) (by decide)).1⟩

/-- C4 (code bug): `add_rule` with a regex rule of higher priority than
an existing rule sorts the new rule to the front of the list, but
compiles its pattern at index `len(rules) - 1`, i.e. under the LAST rule
of the re-sorted list.  Concretely: after adding the regex rule `rx`
(priority 10) to an engine holding only `low` (priority 0), the rule
list is `[rx, low]`, the cache is cleared, no compiled pattern exists at
index 0 (the position of `rx`) while the new pattern sits at index 1
(the position of `low`), so `rx` never matches: `categorize` of a
transaction the pattern matches (under the oracle) falls through to the
default pair. -/
theorem c4_add_rule_regex_bug :
    engineC4.rules = [ruleRegexNew, ruleLowPrio]
    ∧ engineC4.cache = []
    ∧ dictGet engineC4.compiled_patterns 0 = none
    ∧ dictGet engineC4.compiled_patterns 1 = some ("needle", true)
    ∧ inclOracle.search "needle" true (fieldValueOf ruleRegexNew "counterparty" txNeedle) = true
    ∧ matchRule inclOracle engineC4 ruleRegexNew txNeedle 0 = false
    ∧ (categorize inclOracle engineC4 txNeedle).1 = ("Inne wydatki", "Nieprzypisane") := by
  decide

/-- C5 (amended): for every transaction matched by no categorization
rule AND whose case-folded cache key is absent from the result cache,
`categorize` returns exactly `("Inne wydatki", "Nieprzypisane")` and
leaves the engine state (in particular the cache) unchanged, so a later
call with the same key re-runs rule matching.  When the key IS cached
(necessarily by an earlier call that matched a rule), the cached pair is
returned instead, even if the transaction itself matches no rule. -/
theorem c5_default_not_cached (O : RegexOracle) (s : EngineState) (t : Transaction)
    (hmiss : dictGet s.cache (cacheKey t) = none)
    (hnone : findRuleFrom O s.compiled_patterns "counterparty" t s.rules 0 = none) :
    categorize O s t = (("Inne wydatki", "Nieprzypisane"), s) :=
  categorize_nomatch O s t hmiss hnone

/-- C5 counterexample: after the case-sensitive engine categorized
`Shop`, the transaction with counterparty `shop` is matched by no rule,
yet `categorize` returns the cached pair of the earlier call, not the
default pair — refuting the unconditional claim. -/
theorem c5_counterexample :
    findRuleFrom inclOracle engineCS2.compiled_patterns "counterparty" tShopLower
        engineCS2.rules 0 = none
    ∧ (categorize inclOracle engineCS2 tShopLower).1 ≠ ("Inne wydatki", "Nieprzypisane") :=
  ⟨by decide, by decide⟩

/-- C5 witness: on the fresh engine, a transaction matching no rule and
with an uncached key gets the default pair and an unchanged state. -/
theorem c5_witness :
    (dictGet engineCS.cache (cacheKey txNoMatch) = none
     ∧ findRuleFrom inclOracle engineCS.compiled_patterns "counterparty" txNoMatch
         engineCS.rules 0 = none)
    ∧ categorize inclOracle engineCS txNoMatch = (("Inne wydatki", "Nieprzypisane"), engineCS) :=
  ⟨⟨by decide, by decide⟩,
   c5_default_not_cached inclOracle engineCS txNoMatch (by decide) (by decide)⟩

/-- C9: if two transactions have the same counterparty and description
after lower-casing, and categorizing the first one matched a rule with a
previously uncached key (populating the cache), then the subsequent
`categorize` of the second transaction returns exactly the pair the
first call returned, with the state unchanged — even when the rule set
contains a case-sensitive rule under which matching the second
transaction directly would yield a different pair, because the cache key
discards case. -/
theorem c9_cache_discards_case (O : RegexOracle) (s : EngineState) (t₁ t₂ : Transaction)
    (hcp : lowerStr t₂.counterparty = lowerStr t₁.counterparty)
    (hd : lowerStr t₂.description = lowerStr t₁.description)
    (hmiss : dictGet s.cache (cacheKey t₁) = none)
    (idx : Nat) (rule : Rule)
    (hmatch : findRuleFrom O s.compiled_patterns "counterparty" t₁ s.rules 0 = some (idx, rule)) :
    (categorize O ((categorize O s t₁).2) t₂).1 = (categorize O s t₁).1
    ∧ (categorize O ((categorize O s t₁).2) t₂).2 = (categorize O s t₁).2 := by
  have hkey : cacheKey t₂ = cacheKey t₁ := by
    rw [cacheKey, cacheKey, hcp, hd]
  have h1 := categorize_match O s t₁ idx rule hmiss hmatch
  have hstored : dictGet ((categorize O s t₁).2).cache (cacheKey t₁)
      = some (rule.category_main, rule.category_sub) := by
    rw [h1]
    exact dictGet_dictSet_self _ _ _
  have hhit : categorize O ((categorize O s t₁).2) t₂
      = ((rule.category_main, rule.category_sub), (categorize O s t₁).2) := by
    apply categorize_cache_hit
    rw [hkey]
    exact hstored
  rw [hhit, h1]
  exact ⟨rfl, rfl⟩

/-- C9 witness: under the case-sensitive rule, `Shop` matches and
populates the cache; `shop` (same folded key) is matched by NO rule
directly, yet the second call returns the pair of the first call. -/
theorem c9_witness :
    (lowerStr tShopLower.counterparty = lowerStr tShopUpper.counterparty
     ∧ dictGet engineCS.cache (cacheKey tShopUpper) = none
     ∧ findRuleFrom inclOracle engineCS.compiled_patterns "counterparty" tShopUpper
         engineCS.rules 0 = some (0, ruleShopCS)
     ∧ findRuleFrom inclOracle engineCS.compiled_patterns "counterparty" tShopLower
         engineCS.rules 0 = none)
    ∧ (categorize inclOracle ((categorize inclOracle engineCS tShopUpper).2) tShopLower).1
        = (categorize inclOracle engineCS tShopUpper).1 :=
  ⟨⟨by decide, by decide, by decide, by decide⟩,
   (c9_cache_discards_case inclOracle engineCS tShopUpper tShopLower
     (by decide) (by decide) (by decide) 0 ruleShopCS (by decide)).1⟩

/-- C6: `should_exclude` evaluates the exclusion rules in their loaded
(file) order — `initEngine` keeps the exclusion list exactly as loaded,
never sorting it by priority — and the first matching rule wins: the
scan result names a rule at its index that matches while every
earlier-indexed rule does not; the call then returns `true` with the
reason text of the rule (or its name, defaulting to `exclude_` plus the index, when no
reason is given) and increments exactly the exclusion counter of that rule by
one, leaving every other counter and all other engine fields unchanged;
when no exclusion rule matches it returns `(false, none)` and the whole
state, counters included, is unchanged. -/
theorem c6_should_exclude_first_match (O : RegexOracle) (rs ex : List Rule)
    (s : EngineState) (t : Transaction) :
    (initEngine O rs ex).exclude_rules = ex
  ∧ (findRuleFrom O s.compiled_exclude_patterns "description" t s.exclude_rules 0 = none →
      should_exclude O s t = ((false, none), s))
  ∧ (∀ i r, findRuleFrom O s.compiled_exclude_patterns "description" t s.exclude_rules 0
        = some (i, r) →
      s.exclude_rules[i]? = some r
      ∧ matchExcludeRule O s r t i = true
      ∧ (∀ j r', j < i → s.exclude_rules[j]? = some r' → matchExcludeRule O s r' t j = false)
      ∧ (should_exclude O s t).1
          = (true, some (r.reason.getD (r.name.getD ("exclude_" ++ toString i))))
      ∧ dictGet ((should_exclude O s t).2).exclude_stats (r.name.getD ("exclude_" ++ toString i))
          = some ((dictGet s.exclude_stats (r.name.getD ("exclude_" ++ toString i))).getD 0 + 1)
      ∧ (∀ n, n ≠ r.name.getD ("exclude_" ++ toString i) →
          dictGet ((should_exclude O s t).2).exclude_stats n = dictGet s.exclude_stats n)
      ∧ ((should_exclude O s t).2).rules = s.rules
      ∧ ((should_exclude O s t).2).stats = s.stats
      ∧ ((should_exclude O s t).2).cache = s.cache) := by
  refine ⟨rfl, fun h => should_exclude_none O s t h, ?_⟩
  intro i r h
  obtain ⟨_, hget, hmatch, hearlier⟩ :=
    findRuleFrom_some O s.compiled_exclude_patterns "description" t s.exclude_rules 0 i r h
  have hred := should_exclude_match O s t i r h
  rw [Nat.sub_zero] at hget
  refine ⟨hget, hmatch, ?_, ?_, ?_, ?_, ?_, ?_, ?_⟩
  · intro j r' hj hjget
    have h2 := hearlier j r' (by omega) hjget
    simpa using h2
  · rw [hred]
  · rw [hred]
    exact dictGet_dictIncr_self _ _
  · intro n hn
    rw [hred]
    exact dictGet_dictIncr_ne _ _ _ hn
  · rw [hred]
  · rw [hred]
  · rw [hred]

/-- C6 witness: with two exclusion rules in file order, the second one
matches the transfer transaction first (the first does not match); the
call returns its reason text and bumps its counter from absent to 1. -/
theorem c6_witness :
    (findRuleFrom inclOracle engineExcl.compiled_exclude_patterns "description" txTransfer
        engineExcl.exclude_rules 0 = some (1, ruleExclB)
     ∧ ruleExclB.reason.getD (ruleExclB.name.getD ("exclude_" ++ toString 1))
         = "internal transfer")
    ∧ (should_exclude inclOracle engineExcl txTransfer).1
        = (true, some (ruleExclB.reason.getD (ruleExclB.name.getD ("exclude_" ++ toString 1))))
    ∧ dictGet ((should_exclude inclOracle engineExcl txTransfer).2).exclude_stats
        (ruleExclB.name.getD ("exclude_" ++ toString 1))
        = some ((dictGet engineExcl.exclude_stats
            (ruleExclB.name.getD ("exclude_" ++ toString 1))).getD 0 + 1) :=
  ⟨⟨by decide, by decide⟩,
   ((c6_should_exclude_first_match inclOracle [] [ruleExclA, ruleExclB] engineExcl
      txTransfer).2.2 1 ruleExclB (by decide)).2.2.2.1,
   ((c6_should_exclude_first_match inclOracle [] [ruleExclA, ruleExclB] engineExcl
      txTransfer).2.2 1 ruleExclB (by decide)).2.2.2.2.1⟩

/-- C10: when a rule definition omits the `field` key, categorization
matching (`_match_rule`) evaluates the counterparty of the transaction while
exclusion matching (`_match_exclude_rule`) evaluates its description;
and for any configured field name other than `counterparty` or
`description`, both match against the empty string — so such a rule
matches exactly when its pattern matches the empty string (for the four
plain match types: when the pattern is empty; for a regex rule: when the
compiled pattern at the index of the rule finds a match in the empty string;
for an unknown match type: never). -/
theorem c10_field_defaults (O : RegexOracle) (s : EngineState) (rule : Rule)
    (t : Transaction) (idx : Nat) :
    (rule.field = none →
        matchRule O s rule t idx = matchValue O s.compiled_patterns rule idx t.counterparty
      ∧ matchExcludeRule O s rule t idx
          = matchValue O s.compiled_exclude_patterns rule idx t.description)
  ∧ (∀ f : String, rule.field = some f → f ≠ "counterparty" → f ≠ "description" →
        matchRule O s rule t idx = matchValue O s.compiled_patterns rule idx ""
      ∧ matchExcludeRule O s rule t idx = matchValue O s.compiled_exclude_patterns rule idx ""
      ∧ matchRule O s rule t idx = patternMatchesEmpty O s.compiled_patterns rule idx
      ∧ matchExcludeRule O s rule t idx
          = patternMatchesEmpty O s.compiled_exclude_patterns rule idx) := by
  constructor
  · intro hf
    constructor
    · rw [matchRule, fieldValueOf_default_cp rule t hf]
    · rw [matchExcludeRule, fieldValueOf_default_desc rule t hf]
  · intro f hf h1 h2
    have hcp : fieldValueOf rule "counterparty" t = "" :=
      fieldValueOf_other rule _ t f hf h1 h2
    have hdc : fieldValueOf rule "description" t = "" :=
      fieldValueOf_other rule _ t f hf h1 h2
    refine ⟨?_, ?_, ?_, ?_⟩
    · rw [matchRule, hcp]
    · rw [matchExcludeRule, hdc]
    · rw [matchRule, hcp, matchValue_empty]
    · rw [matchExcludeRule, hdc, matchValue_empty]

/-- C10 witness: the theorem applied to a rule omitting `field` (reads
the counterparty for categorization, the description for exclusion) and
to a rule with field `note` and an empty contains-pattern, which
therefore matches (its pattern matches the empty string). -/
theorem c10_witness :
    (ruleNoField.field = none
     ∧ matchRule inclOracle engineCS ruleNoField txNoMatch 0
         = matchValue inclOracle engineCS.compiled_patterns ruleNoField 0 txNoMatch.counterparty)
    ∧ (ruleOddField.field = some "note"
     ∧ matchRule inclOracle engineCS ruleOddField txNoMatch 3
         = patternMatchesEmpty inclOracle engineCS.compiled_patterns ruleOddField 3
     ∧ matchRule inclOracle engineCS ruleOddField txNoMatch 3 = true) :=
  ⟨⟨by decide,
    ((c10_field_defaults inclOracle engineCS ruleNoField txNoMatch 0).1 (by decide)).1⟩,
   ⟨by decide,
    ((c10_field_defaults inclOracle engineCS ruleOddField txNoMatch 3).2 "note"
      (by decide) (by decide) (by decide)).2.2.1,
    by decide⟩⟩
